import Mathlib

/-!
Shallow embedding of the `layerzero_mcp` repository: the chain registry and
address codec from `src/utils.ts`, and the two MCP tool handlers
(`deploy-and-configure-oft-multichain`, `bridge-oft`) from the main server
file.  External chain interactions (factory deploys, `setPeer`,
`setEnforcedOptions`, fee quoting, sends) are modelled by an explicit
environment supplying each call's outcome, and the handlers additionally
emit a trace of every chain operation they attempt, in order.  The ethers
helpers the code relies on (`keccak256`, `toUtf8Bytes`, `zeroPadValue`,
`parseUnits`, `solidityPacked`) are modelled concretely on `List Nat`
byte strings.
-/

deriving instance DecidableEq for Except

/-! ## Bytes and hex strings (ethers `getBytes` / `hexlify`) -/

/-- Value of a hex digit character, if it is one (stated on code points:
48–57 are `0`–`9`, 97–102 are `a`–`f`, 65–70 are `A`–`F`). -/
def hexDigitVal (c : Char) : Option Nat :=
  if 48 ≤ c.toNat ∧ c.toNat ≤ 57 then some (c.toNat - 48)
  else if 97 ≤ c.toNat ∧ c.toNat ≤ 102 then some (c.toNat - 97 + 10)
  else if 65 ≤ c.toNat ∧ c.toNat ≤ 70 then some (c.toNat - 65 + 10)
  else none

/-- Parse an even-length run of hex digit characters into bytes. -/
def parseHexPairs : List Char → Option (List Nat)
  | [] => some []
  | [_] => none
  | c1 :: c2 :: rest =>
    match hexDigitVal c1, hexDigitVal c2, parseHexPairs rest with
    | some h, some l, some bs => some ((16 * h + l) :: bs)
    | _, _, _ => none

/-- The character-list core of ethers `getBytes`: a `0x` prefix followed by
an even number of hex digits; otherwise the ethers
"invalid BytesLike value" error. -/
def getBytesAux : List Char → Except String (List Nat)
  | '0' :: 'x' :: rest =>
    (match parseHexPairs rest with
      | some bs => .ok bs
      | none => .error "invalid BytesLike value")
  | _ => .error "invalid BytesLike value"

/-- ethers `getBytes` on a string input. -/
def getBytesModel (s : String) : Except String (List Nat) :=
  getBytesAux s.data

/-- Lowercase hex digit character for a value below 16. -/
def hexDigitChar (n : Nat) : Char :=
  Char.ofNat (if n < 10 then 48 + n else 87 + n)

/-- Two lowercase hex characters for one byte. -/
def byteToHex (b : Nat) : List Char :=
  [hexDigitChar (b / 16 % 16), hexDigitChar (b % 16)]

/-- ethers `hexlify`: `0x`-prefixed lowercase hex rendering of bytes. -/
def hexlify (bs : List Nat) : String :=
  "0x" ++ String.mk (bs.flatMap byteToHex)

/-- ethers `zeroPadValue`-style left pad (`zeroPad` with `left = true`):
reject non-byte-string inputs, reject data longer than the requested
`length`, and otherwise left-pad with zero bytes and re-hexlify. -/
def zeroPadValue (s : String) (length : Nat) : Except String String :=
  match getBytesModel s with
  | .error e => .error e
  | .ok bs =>
    if length < bs.length then
      .error "padding exceeds data size"
    else
      .ok (hexlify (List.replicate (length - bs.length) 0 ++ bs))

/-! ## UTF-8 encoding (ethers `toUtf8Bytes`) -/

/-- Standard UTF-8 encoding of one Unicode scalar value. -/
def utf8EncodeChar (c : Char) : List Nat :=
  let n := c.toNat
  if n < 0x80 then [n]
  else if n < 0x800 then [0xc0 + n / 64, 0x80 + n % 64]
  else if n < 0x10000 then
    [0xe0 + n / 4096, 0x80 + n / 64 % 64, 0x80 + n % 64]
  else
    [0xf0 + n / 262144, 0x80 + n / 4096 % 64, 0x80 + n / 64 % 64,
      0x80 + n % 64]

/-- ethers `toUtf8Bytes`: UTF-8 bytes of a string. -/
def toUtf8Bytes (s : String) : List Nat :=
  s.data.flatMap utf8EncodeChar

/-! ## Keccak-256 (ethers `keccak256`)

Lanes are 64-bit words carried as `Nat` with explicit reduction mod `2 ^ 64`
where an operation can overflow; the 25-lane state is a list indexed by
`x + 5 * y`. -/

/-- Bitwise complement within 64 bits. -/
def not64 (v : Nat) : Nat := v ^^^ (2 ^ 64 - 1)

/-- Rotate a 64-bit lane left by `n` bits. -/
def rotl64 (v n : Nat) : Nat :=
  ((v <<< n) ||| (v >>> (64 - n))) % 2 ^ 64

/-- Keccak θ step. -/
def keccakTheta (s : List Nat) : List Nat :=
  let c := List.ofFn fun x : Fin 5 =>
    s.getD x.val 0 ^^^ s.getD (x.val + 5) 0 ^^^ s.getD (x.val + 10) 0 ^^^
      s.getD (x.val + 15) 0 ^^^ s.getD (x.val + 20) 0
  let d := List.ofFn fun x : Fin 5 =>
    c.getD ((x.val + 4) % 5) 0 ^^^ rotl64 (c.getD ((x.val + 1) % 5) 0) 1
  List.ofFn fun i : Fin 25 => s.getD i.val 0 ^^^ d.getD (i.val % 5) 0

/-- Keccak ρ rotation offsets, indexed by `x + 5 * y`. -/
def keccakRotOffsets : List Nat :=
  List.flatten [[0, 1, 62, 28, 27], [36, 44, 6, 55, 20],
    [3, 10, 43, 25, 39], [41, 45, 15, 21, 8], [18, 2, 61, 56, 14]]

/-- Keccak ρ and π steps combined: output lane `(x', y')` is the source lane
`((x' + 3 * y') % 5, x')` rotated by its offset. -/
def keccakRhoPi (s : List Nat) : List Nat :=
  List.ofFn fun j : Fin 25 =>
    let src := (j.val % 5 + 3 * (j.val / 5)) % 5 + 5 * (j.val % 5)
    rotl64 (s.getD src 0) (keccakRotOffsets.getD src 0)

/-- Keccak χ step. -/
def keccakChi (s : List Nat) : List Nat :=
  List.ofFn fun j : Fin 25 =>
    let x := j.val % 5
    let y := j.val / 5
    s.getD j.val 0 ^^^
      (not64 (s.getD ((x + 1) % 5 + 5 * y) 0) &&& s.getD ((x + 2) % 5 + 5 * y) 0)

/-- Keccak round constants. -/
def keccakRoundConstants : List Nat :=
  [0x0000000000000001, 0x0000000000008082, 0x800000000000808a,
    0x8000000080008000, 0x000000000000808b, 0x0000000080000001,
    0x8000000080008081, 0x8000000000008009, 0x000000000000008a,
    0x0000000000000088, 0x0000000080008009, 0x000000008000000a,
    0x000000008000808b, 0x800000000000008b, 0x8000000000008089,
    0x8000000000008003, 0x8000000000008002, 0x8000000000000080,
    0x000000000000800a, 0x800000008000000a, 0x8000000080008081,
    0x8000000000008080, 0x0000000080000001, 0x8000000080008008]

/-- Keccak ι step for a given round constant. -/
def keccakIota (rc : Nat) (s : List Nat) : List Nat :=
  List.ofFn fun j : Fin 25 =>
    if j.val = 0 then s.getD 0 0 ^^^ rc else s.getD j.val 0

/-- The Keccak-f[1600] permutation: 24 rounds of θ, ρ, π, χ, ι. -/
def keccakF (s : List Nat) : List Nat :=
  keccakRoundConstants.foldl
    (fun st rc => keccakIota rc (keccakChi (keccakRhoPi (keccakTheta st)))) s

/-- Read a little-endian 64-bit lane from 8 bytes of a block at `off`. -/
def laneFromBytes (block : List Nat) (off : Nat) : Nat :=
  block.getD off 0 + block.getD (off + 1) 0 * 2 ^ 8 +
    block.getD (off + 2) 0 * 2 ^ 16 + block.getD (off + 3) 0 * 2 ^ 24 +
    block.getD (off + 4) 0 * 2 ^ 32 + block.getD (off + 5) 0 * 2 ^ 40 +
    block.getD (off + 6) 0 * 2 ^ 48 + block.getD (off + 7) 0 * 2 ^ 56

/-- XOR one 136-byte rate block into the first 17 lanes of the state. -/
def absorbBlock (s : List Nat) (block : List Nat) : List Nat :=
  List.ofFn fun j : Fin 25 =>
    if j.val < 17 then s.getD j.val 0 ^^^ laneFromBytes block (8 * j.val)
    else s.getD j.val 0

/-- Original Keccak multi-rate padding (pad10*1 with domain byte `0x01`,
as used by Ethereum's keccak256, not the SHA-3 `0x06` variant). -/
def keccakPad (msg : List Nat) : List Nat :=
  let padLen := 136 - msg.length % 136
  if padLen = 1 then msg ++ [0x81]
  else msg ++ [0x01] ++ List.replicate (padLen - 2) 0 ++ [0x80]

/-- Absorb all rate blocks of the padded message. -/
def keccakAbsorb (msg : List Nat) : List Nat :=
  let padded := keccakPad msg
  (List.range (padded.length / 136)).foldl
    (fun st i => keccakF (absorbBlock st ((padded.drop (136 * i)).take 136)))
    (List.replicate 25 0)

/-- Keccak-256 digest (32 bytes) of a byte string. -/
def keccak256 (msg : List Nat) : List Nat :=
  let s := keccakAbsorb msg
  List.ofFn fun i : Fin 32 => (s.getD (i.val / 8) 0 >>> (8 * (i.val % 8))) % 2 ^ 8


/-! ## Fixed-point decimal strings (ethers `parseUnits` / `formatUnits`) -/

/-- Decimal digit test. -/
def isDigitChar (c : Char) : Bool :=
  decide ('0' ≤ c ∧ c ≤ '9')

/-- Numeric value of a run of decimal digit characters. -/
def digitsToNat (cs : List Char) : Nat :=
  cs.foldl (fun a c => 10 * a + (c.toNat - '0'.toNat)) 0

/-- The ethers v6 `FixedNumber.fromString` input shape
`^(-?)([0-9]*)\.?([0-9]*)$`: optional sign, whole digits, optional dot,
fraction digits, nothing else. -/
def matchFixedNumber (s : String) : Option (Bool × List Char × List Char) :=
  let cs := s.data
  let neg := match cs with
    | '-' :: _ => true
    | _ => false
  let cs1 := if neg then cs.drop 1 else cs
  let whole := cs1.takeWhile isDigitChar
  match cs1.dropWhile isDigitChar with
  | [] => some (neg, whole, [])
  | '.' :: rest =>
    if (rest.dropWhile isDigitChar).isEmpty then
      some (neg, whole, rest.takeWhile isDigitChar)
    else none
  | _ => none

/-- ethers `parseUnits(value, decimals)` (via `FixedNumber.fromString` with
width 512): parse the fixed-point string, reject more fraction digits than
`decimals`, right-pad the fraction to `decimals` digits, and reject
signed-512-bit overflow. -/
def parseUnits (value : String) (decimals : Nat) : Except String Int :=
  match matchFixedNumber value with
  | none => .error "invalid FixedNumber string value"
  | some (neg, whole, frac) =>
    if whole.length + frac.length = 0 then
      .error "invalid FixedNumber string value"
    else if decimals < frac.length then
      .error "too many decimals for format"
    else
      let mag : Nat :=
        digitsToNat (whole ++ frac ++ List.replicate (decimals - frac.length) '0')
      let v : Int := if neg then -(mag : Int) else (mag : Int)
      if v < -(2 ^ 511) ∨ (2 ^ 511 : Int) ≤ v then .error "overflow"
      else .ok v

/-- ethers `formatUnits(value, decimals)`: decimal rendering with the
fraction's trailing zeros trimmed down to at least one digit. -/
def formatUnits (v : Int) (decimals : Nat) : String :=
  let sign := if v < 0 then "-" else ""
  let a := v.natAbs
  let fracDigits := Nat.toDigits 10 (a % 10 ^ decimals)
  let fracPadded := List.replicate (decimals - fracDigits.length) '0' ++ fracDigits
  let trimmed := (fracPadded.reverse.dropWhile (fun c => c = '0')).reverse
  let frac := if trimmed.isEmpty then ['0'] else trimmed
  sign ++ toString (a / 10 ^ decimals) ++ "." ++ String.mk frac

/-- ethers `solidityPacked(["bytes", "bytes"], [a, b])`: byte-wise
concatenation of two hex byte strings, re-hexlified. -/
def solidityPackedBytes2 (a b : String) : Except String String :=
  match getBytesModel a with
  | .error e => .error e
  | .ok x =>
    match getBytesModel b with
    | .error e => .error e
    | .ok y => .ok (hexlify (x ++ y))

/-! ## `src/utils.ts`: chain registry and address codec -/

/-- `NetworkConfig` from `utils.ts`. -/
structure NetworkConfig where
  name : String
  rpc : String
  chainId : Nat
  lzEndpoint : String
  lzEid : Nat
deriving DecidableEq, Repr

/-- The `NETWORKS` table from `utils.ts`, parametrised by the two RPC URLs
read from the environment. -/
def NETWORKS (arbitrumSepoliaRpcUrl baseSepoliaRpcUrl : String) :
    List NetworkConfig :=
  [⟨"ArbitrumSepolia", arbitrumSepoliaRpcUrl, 421614,
      "0x6EDCE65403992e310A62460808c4b910D972f10f", 40231⟩,
    ⟨"baseSepolia", baseSepoliaRpcUrl, 84532,
      "0x6EDCE65403992e310A62460808c4b910D972f10f", 40245⟩]

/-- `getNetworkConfig` from `utils.ts`: keyed lookup in the registry,
throwing when the network is absent. -/
def getNetworkConfig (networks : List NetworkConfig) (networkName : String) :
    Except String NetworkConfig :=
  match networks.find? (fun n => n.name == networkName) with
  | some n => .ok n
  | none => .error ("Network configuration not found for " ++ networkName)

/-- `getSigner` from `utils.ts`: resolves the network config and builds a
wallet bound to a fresh provider for that RPC endpoint.  Wallet and provider
construction make no network call, so the model reduces to the registry
lookup (the process-wide private key is validated at startup). -/
def getSigner (networks : List NetworkConfig) (networkName : String) :
    Except String NetworkConfig :=
  getNetworkConfig networks networkName

/-- `formatAddressForLayerZero` from `utils.ts`: `zeroPadValue(address, 32)`. -/
def formatAddressForLayerZero (address : String) : Except String String :=
  zeroPadValue address 32


/-! ## The `deploy-and-configure-oft-multichain` tool handler

The handler is embedded as a pure function over a `ServerConfig` (process
configuration and contract artifacts, which are external inputs) and a
`DeployEnv` supplying the outcome of every chain interaction.  Alongside the
response it returns a `HandlerState` whose `trace` lists, in order, every
chain operation the handler attempted.  A transaction that is broadcast but
fails to confirm is modelled as the corresponding call failing. -/

/-- The constructor argument list passed to `Interface.encodeDeploy`:
token name, token symbol, raw parsed supply, the chain's LayerZero endpoint
address, and the resolved owner. -/
structure CtorArgs where
  tokenName : String
  tokenSymbol : String
  initialSupply : Int
  lzEndpoint : String
  owner : String
deriving DecidableEq, Repr

/-- One entry of the `setEnforcedOptions` argument list. -/
structure EnforcedOption where
  eid : Nat
  msgType : Nat
  options : String
deriving DecidableEq, Repr

/-- A chain operation attempted by the deployment handler.  A deployment
attempt records the constructor argument list both structurally (`args`)
and as the packed deploy data actually sent (`bytecodeWithArgs`, the
concatenation of the contract bytecode and the encoded arguments). -/
inductive NetOp where
  | deployAttempt (chainName : String) (factoryAddress : String)
      (args : CtorArgs) (bytecodeWithArgs : String) (salt : String)
  | setPeer (chainName : String) (contractAddress : String) (eid : Nat)
      (peerBytes32 : String)
  | setEnforcedOptions (chainName : String) (contractAddress : String)
      (options : List EnforcedOption)
deriving DecidableEq, Repr

/-- One entry of `deployedContractsSummary`. -/
structure DeploySummaryEntry where
  chainName : String
  contractAddress : Option String
  deploymentStatus : String
  error : Option String
deriving DecidableEq, Repr

/-- One entry of `deployedContractsData` (the live-contract handle is not
modelled; calls on it go through the environment keyed by chain name). -/
structure DeployedContractData where
  chainName : String
  address : String
  lzEid : Nat
  networkConfig : NetworkConfig
deriving DecidableEq, Repr

/-- The success payload of the deployment tool. -/
structure DeployReport where
  overallStatus : String
  deployedContracts : List DeploySummaryEntry
  peeringResults : List String
  enforcedOptionsResults : List String
  detailedExecutionLog : List String
deriving DecidableEq, Repr

/-- Outcome of the handler body: a success payload, an error payload
(`isError: true`), or an exception escaping the handler. -/
inductive ToolResponse where
  | ok (report : DeployReport)
  | err (text : String)
  | thrown (msg : String)
deriving DecidableEq, Repr

/-- Process configuration and contract artifacts.  `oftAbiOk` models the
placeholder/emptiness checks on the external ABI artifact; `encodeDeploy`
models `Interface.encodeDeploy` for that ABI (an opaque external encoder
producing a hex string). -/
structure ServerConfig where
  envOwnerAddress : Option String
  oftAbiOk : Bool
  oftBytecode : String
  factoryAddresses : String → Option String
  networks : List NetworkConfig
  encodeDeploy : CtorArgs → String
  signerAddress : String

/-- Outcomes of the chain interactions of one deployment request: the
CREATE2 factory deploy (send, confirmation and `lastDeployedAddress`
read-back collapsed into one result), `setPeer` and `setEnforcedOptions`
(each returning a transaction hash on success). -/
structure DeployEnv where
  deployResult : String → Except String String
  setPeerResult : String → Nat → String → Except String String
  setEnforcedOptionsResult : String → List EnforcedOption → Except String String

/-- The request parameters after zod validation (decimals defaulted). -/
structure DeployParams where
  tokenName : String
  tokenSymbol : String
  initialTotalSupply : String
  decimals : Nat
  targetChains : List String
  owner : Option String
deriving DecidableEq, Repr

/-- Accumulator state of the handler: execution log, per-chain summary,
deployed-contract records, phase C and D result lists, and the trace of
attempted chain operations. -/
structure HandlerState where
  log : List String
  summary : List DeploySummaryEntry
  deployed : List DeployedContractData
  peeringResults : List String
  enforcedOptionsResults : List String
  trace : List NetOp
deriving DecidableEq, Repr

/-- JS `includes`: substring occurrence test. -/
def strContains (s pat : String) : Bool :=
  s.data.tails.any (fun t => pat.data.isPrefixOf t)

/-- The salt: `ethers.keccak256(ethers.toUtf8Bytes(tokenName + ":" + tokenSymbol))`
(a `0x` hex string). -/
def computeSalt (tokenName tokenSymbol : String) : String :=
  hexlify (keccak256 (toUtf8Bytes (tokenName ++ ":" ++ tokenSymbol)))

/-- Does the string start with `0x`? -/
def startsWith0x (s : String) : Bool :=
  match s.data with
  | '0' :: 'x' :: _ => true
  | _ => false

/-- Bytecode normalisation from phase A: prefix `0x` when missing. -/
def normBytecode (cfg : ServerConfig) : String :=
  if startsWith0x cfg.oftBytecode then cfg.oftBytecode
  else "0x" ++ cfg.oftBytecode

/-- `params.owner || envOwnerAddress` (JS `||`: an empty string also falls
back to the environment owner; `""` when no owner is configured at all,
which phase A rules out). -/
def effectiveOwner (cfg : ServerConfig) (p : DeployParams) : String :=
  match cfg.envOwnerAddress with
  | none => ""
  | some envOwner =>
    match p.owner with
    | some o => if o = "" then envOwner else o
    | none => envOwner

/-- Wrap an early-returning catch result for use inside a loop body. -/
def catchSome (x : HandlerState × ToolResponse) :
    HandlerState × Option ToolResponse :=
  (x.1, some x.2)

/-- The deployment-loop catch block: rebuild the constructor arguments and
packed bytecode (any of those steps throwing escapes the handler), append
the failure message to the log and a `Failed` entry to the summary, and
return the error payload. -/
def deployCatch (cfg : ServerConfig) (bytecode deployOwner : String)
    (p : DeployParams) (c : String) (st : HandlerState) (e : String) :
    HandlerState × ToolResponse :=
  match parseUnits p.initialTotalSupply 0 with
  | .error e2 => (st, .thrown e2)
  | .ok ps =>
    match getNetworkConfig cfg.networks c with
    | .error e3 => (st, .thrown e3)
    | .ok ncfg =>
      match solidityPackedBytes2 bytecode
          (cfg.encodeDeploy ⟨p.tokenName, p.tokenSymbol, ps, ncfg.lzEndpoint,
            deployOwner⟩) with
      | .error e4 => (st, .thrown e4)
      | .ok bca =>
        let errorMessage :=
          "  FAILURE: Deploying on " ++ c ++ ": " ++ e ++ ", salt: \n        " ++
            computeSalt p.tokenName p.tokenSymbol ++ ", bytecode: " ++ bca
        ({ st with
            log := st.log ++ [errorMessage],
            summary := st.summary ++ [⟨c, none, "Failed", some e⟩] },
          .err ("Error: Failed to Deploy OFT: " ++ errorMessage))

/-- One iteration of the deployment loop (the body of the `for` over
`targetChains`, including its `try`/`catch`).  Returns the updated state
and, on failure, the early response. -/
def deployIter (cfg : ServerConfig) (env : DeployEnv)
    (bytecode deployOwner : String) (p : DeployParams) (st : HandlerState)
    (c : String) : HandlerState × Option ToolResponse :=
  let st := { st with log := st.log ++ ["Attempting deployment on " ++ c ++ "..."] }
  match getSigner cfg.networks c with
  | .error e =>
    catchSome (deployCatch cfg bytecode deployOwner p c st e)
  | .ok _ =>
    match getNetworkConfig cfg.networks c with
    | .error e =>
      catchSome (deployCatch cfg bytecode deployOwner p c st e)
    | .ok ncfg =>
      let st := { st with log := st.log ++
        ["  Signer and network config obtained for " ++ c ++ ". RPC: " ++
          ncfg.rpc ++ ", LZ EID: " ++ toString ncfg.lzEid] }
      match parseUnits p.initialTotalSupply 0 with
      | .error e =>
        catchSome (deployCatch cfg bytecode deployOwner p c st e)
      | .ok ps =>
        let st := { st with log := st.log ++
          ["  Token: " ++ p.tokenName ++ " (" ++ p.tokenSymbol ++ "), Supply: " ++
            p.initialTotalSupply ++ " (parsed: " ++ toString ps ++ "), Decimals: " ++
            toString p.decimals] }
        match cfg.factoryAddresses c with
        | none =>
          catchSome (deployCatch cfg bytecode deployOwner p c st

            ("Factory address not defined for " ++ c))
        | some fa =>
          let st := { st with log := st.log ++ ["  Contract factory created."] }
          let salt := computeSalt p.tokenName p.tokenSymbol
          let args : CtorArgs :=
            ⟨p.tokenName, p.tokenSymbol, ps, ncfg.lzEndpoint, deployOwner⟩
          match solidityPackedBytes2 bytecode (cfg.encodeDeploy args) with
          | .error e =>
            catchSome (deployCatch cfg bytecode deployOwner p c st e)
          | .ok bca =>
            let st := { st with log := st.log ++
              ["  Deploying with CREATE2 on " ++ c ++ " using salt: " ++ salt] }
            let st := { st with trace := st.trace ++
              [.deployAttempt c fa args bca salt] }
            match env.deployResult c with
            | .error e =>
              catchSome (deployCatch cfg bytecode deployOwner p c st e)
            | .ok addr =>
              ({ st with
                  log := st.log ++
                    ["  SUCCESS: Deployed via CREATE2 at computed address: " ++ addr],
                  deployed := st.deployed ++ [⟨c, addr, ncfg.lzEid, ncfg⟩],
                  summary := st.summary ++ [⟨c, some addr, "Success", none⟩] },
                none)

/-- The deployment loop over the target chains. -/
def deployLoop (cfg : ServerConfig) (env : DeployEnv)
    (bytecode deployOwner : String) (p : DeployParams) :
    List String → HandlerState → HandlerState × Option ToolResponse
  | [], st => (st, none)
  | c :: rest, st =>
    match deployIter cfg env bytecode deployOwner p st c with
    | (st, some r) => (st, some r)
    | (st, none) => deployLoop cfg env bytecode deployOwner p rest st

/-- The log prefix of one peering step. -/
def peerLogPrefix (a b : DeployedContractData) : String :=
  "  Peering " ++ a.chainName ++ " (EID: " ++ toString a.lzEid ++ ") with " ++
    b.chainName ++ " (EID: " ++ toString b.lzEid ++ ", Address: " ++
    b.address ++ "):"

/-- The peering catch block: log the failure and return the error payload. -/
def peerCatch (logPrefix : String) (st : HandlerState) (e : String) :
    HandlerState × ToolResponse :=
  let errorMsg := logPrefix ++ " FAILURE: " ++ e
  ({ st with
      log := st.log ++ [errorMsg],
      peeringResults := st.peeringResults ++ [errorMsg] },
    .err ("Error: Failed to Deploy OFT: " ++ errorMsg))

/-- The body of the inner peering loop for one ordered pair `(a, b)` with
`a.chainName ≠ b.chainName`. -/
def peerStep (env : DeployEnv) (a b : DeployedContractData)
    (st : HandlerState) : HandlerState × Option ToolResponse :=
  let logPrefix := peerLogPrefix a b
  match formatAddressForLayerZero b.address with
  | .error e =>
    catchSome (peerCatch logPrefix st e)
  | .ok peerAddressBytes32 =>
    let st := { st with peeringResults := st.peeringResults ++
      [logPrefix ++ " Formatting peer address " ++ b.address ++ " to " ++
        peerAddressBytes32] }
    let st := { st with trace := st.trace ++
      [.setPeer a.chainName a.address b.lzEid peerAddressBytes32] }
    match env.setPeerResult a.chainName b.lzEid peerAddressBytes32 with
    | .error e =>
      catchSome (peerCatch logPrefix st e)
    | .ok txHash =>
      let st := { st with peeringResults := st.peeringResults ++
        [logPrefix ++ " setPeer transaction sent. Waiting for confirmation... TxHash: " ++
          txHash] }
      let successMsg := logPrefix ++ " SUCCESS."
      ({ st with
          log := st.log ++ [successMsg],
          peeringResults := st.peeringResults ++ [successMsg] }, none)

/-- The inner peering loop: `a` against each remaining `b`, skipping the
same chain. -/
def peerInner (env : DeployEnv) (a : DeployedContractData) :
    List DeployedContractData → HandlerState → HandlerState × Option ToolResponse
  | [], st => (st, none)
  | b :: rest, st =>
    if a.chainName = b.chainName then peerInner env a rest st
    else
      match peerStep env a b st with
      | (st, some r) => (st, some r)
      | (st, none) => peerInner env a rest st

/-- The outer peering loop over the deployed contracts. -/
def peerOuter (env : DeployEnv) (all : List DeployedContractData) :
    List DeployedContractData → HandlerState → HandlerState × Option ToolResponse
  | [], st => (st, none)
  | a :: rest, st =>
    match peerInner env a all st with
    | (st, some r) => (st, some r)
    | (st, none) => peerOuter env all rest st

/-- The fixed standard enforced-options payload (200k gas limit). -/
def standardOptionsHex : String :=
  "0x00030100110100000000000000000000000000030d40"

/-- The enforced-options entries built for contract `a`: one per other
deployed contract, in deployment order. -/
def optionsToSetFor (all : List DeployedContractData)
    (a : DeployedContractData) : List EnforcedOption :=
  (all.filter (fun peer => ¬ (a.chainName = peer.chainName))).map
    (fun peer => ⟨peer.lzEid, 1, standardOptionsHex⟩)

/-- The body of the enforced-options loop for one deployed contract. -/
def enforcedStep (env : DeployEnv) (all : List DeployedContractData)
    (a : DeployedContractData) (st : HandlerState) :
    HandlerState × Option ToolResponse :=
  let logPrefix := "  Configuring enforced options on " ++ a.chainName ++
    " (Address: " ++ a.address ++ "):"
  let optionsToSet : List EnforcedOption := optionsToSetFor all a
  if optionsToSet.length > 0 then
    let st := { st with enforcedOptionsResults := st.enforcedOptionsResults ++
      [logPrefix ++ " Preparing to set options for " ++
        toString optionsToSet.length ++ " peers: " ++
        String.intercalate ", "
          (optionsToSet.map (fun o : EnforcedOption => "EID " ++ toString o.eid))] }
    let st := { st with trace := st.trace ++
      [NetOp.setEnforcedOptions a.chainName a.address optionsToSet] }
    match env.setEnforcedOptionsResult a.chainName optionsToSet with
    | .error e =>
      let errorMsg := logPrefix ++ " FAILURE: " ++ e
      ({ st with
          log := st.log ++ [errorMsg],
          enforcedOptionsResults := st.enforcedOptionsResults ++ [errorMsg] },
        some (.err ("Error: Failed to Deploy OFT: " ++ errorMsg)))
    | .ok txHash =>
      let st := { st with enforcedOptionsResults := st.enforcedOptionsResults ++
        [logPrefix ++ " setEnforcedOptions transaction sent. Waiting for confirmation... TxHash: " ++
          txHash] }
      let successMsg := logPrefix ++ " SUCCESS: Set enforced options for " ++
        toString optionsToSet.length ++ " peers."
      ({ st with
          log := st.log ++ [successMsg],
          enforcedOptionsResults := st.enforcedOptionsResults ++ [successMsg] },
        none)
  else
    let noPeersMsg := logPrefix ++ " No peers to set enforced options for."
    ({ st with
        log := st.log ++ [noPeersMsg],
        enforcedOptionsResults := st.enforcedOptionsResults ++ [noPeersMsg] },
      none)

/-- The enforced-options loop over the deployed contracts. -/
def enforcedLoop (env : DeployEnv) (all : List DeployedContractData) :
    List DeployedContractData → HandlerState → HandlerState × Option ToolResponse
  | [], st => (st, none)
  | a :: rest, st =>
    match enforcedStep env all a st with
    | (st, some r) => (st, some r)
    | (st, none) => enforcedLoop env all rest st

/-- Phase E: derive the overall status from the summary and the log. -/
def overallStatusOf (st : HandlerState) : String :=
  if (st.summary.any (fun s => s.deploymentStatus == "Failed") ||
      st.log.any (fun r => strContains r "FAILURE")) = true then
    "Deployment and configuration process completed. Some errors occurred. Check detailed logs."
  else if st.deployed.length = 0 then
    "Deployment failed on all target chains."
  else
    "Successfully deployed and configured on all attempted chains where deployment succeeded."

/-- Phase C: skip notice when fewer than two contracts deployed, otherwise
the all-pairs peering loops. -/
def peeringPhase (env : DeployEnv) (st : HandlerState) :
    HandlerState × Option ToolResponse :=
  if st.deployed.length < 2 then
    let msg := "Skipping peering phase: Less than 2 contracts successfully deployed."
    ({ st with
        log := st.log ++ [msg],
        peeringResults := st.peeringResults ++ [msg] }, none)
  else
    let st := { st with log := st.log ++
      ["Found " ++ toString st.deployed.length ++
        " successfully deployed contracts for peering."] }
    peerOuter env st.deployed st.deployed st

/-- Phase D: skip notice when nothing deployed, otherwise the
enforced-options loop. -/
def enforcedPhase (env : DeployEnv) (st : HandlerState) :
    HandlerState × Option ToolResponse :=
  if st.deployed.length = 0 then
    let msg := "Skipping enforced options phase: No contracts successfully deployed."
    ({ st with
        log := st.log ++ [msg],
        enforcedOptionsResults := st.enforcedOptionsResults ++ [msg] }, none)
  else
    enforcedLoop env st.deployed st.deployed st

/-- Phases C, D and E, run after the deployment loop completed without an
early return. -/
def configurePhases (env : DeployEnv) (st : HandlerState) :
    HandlerState × ToolResponse :=
  let st := { st with log := st.log ++ ["Deployment Phase completed."] }
  let st := { st with log := st.log ++ ["\nPhase C: Peering Phase started."] }
  match peeringPhase env st with
  | (st, some r) => (st, r)
  | (st, none) =>
    let st := { st with log := st.log ++ ["Peering Phase completed."] }
    let st := { st with log := st.log ++ ["\nPhase D: Enforced Options Phase started."] }
    let st := { st with log := st.log ++
      ["Standard options hex for enforced options: " ++ standardOptionsHex] }
    match enforcedPhase env st with
    | (st, some r) => (st, r)
    | (st, none) =>
      let st := { st with log := st.log ++ ["Enforced Options Phase completed."] }
      let st := { st with log := st.log ++ ["\nPhase E: Preparing results."] }
      let overallStatus := overallStatusOf st
      let st := { st with log := st.log ++ ["Overall Status: " ++ overallStatus] }
      (st, .ok ⟨overallStatus, st.summary, st.peeringResults,
        st.enforcedOptionsResults, st.log⟩)

/-- The `deploy-and-configure-oft-multichain` handler body. -/
def deployAndConfigureOftMultichain (cfg : ServerConfig) (env : DeployEnv)
    (p : DeployParams) : HandlerState × ToolResponse :=
  let st : HandlerState := ⟨["Phase A: Initial Checks & Setup started."],
    [], [], [], [], []⟩
  match cfg.envOwnerAddress with
  | none =>
    ({ st with log := st.log ++
        ["Error: OWNER_ADDRESS is not set in environment variables."] },
      .err "Error: OWNER_ADDRESS is not set in environment variables.")
  | some envOwner =>
    let st := { st with log := st.log ++ ["OWNER_ADDRESS found: " ++ envOwner] }
    if (!cfg.oftAbiOk || cfg.oftBytecode == "BYTECODE_PLACEHOLDER" ||
        cfg.oftBytecode == "") = true then
      ({ st with log := st.log ++
          ["Error: OFT_ABI or OFT_BYTECODE are placeholders. Please replace them in layerzero-mcp.ts."] },
        .err "Error: OFT_ABI or OFT_BYTECODE are placeholders. Please replace them in layerzero-mcp.ts.")
    else
      let st := { st with log := st.log ++
        ["OFT_ABI and OFT_BYTECODE are not placeholders."] }
      let bytecode := normBytecode cfg
      if p.targetChains.isEmpty = true then
        ({ st with log := st.log ++ ["Error: targetChains array is empty."] },
          .err "Error: Failed to Deploy OFT: Error: targetChains array is empty. Please provide at least one target chain.")
      else
        let st := { st with log := st.log ++
          ["Target chains for deployment: " ++
            String.intercalate ", " p.targetChains] }
        let st := { st with log := st.log ++ ["Initialization complete."] }
        let st := { st with log := st.log ++ ["\nPhase B: Deployment Phase started."] }
        let deployOwner := effectiveOwner cfg p
        let st := { st with log := st.log ++
          ["Deployment owner set to: " ++ deployOwner] }
        match deployLoop cfg env bytecode deployOwner p p.targetChains st with
        | (st, some r) => (st, r)
        | (st, none) => configurePhases env st

/-- The deployed tool as observed through the MCP transport: the SDK catches
an exception escaping the handler and converts it into an error payload
carrying the exception message. -/
def deployTool (cfg : ServerConfig) (env : DeployEnv) (p : DeployParams) :
    HandlerState × ToolResponse :=
  match deployAndConfigureOftMultichain cfg env p with
  | (st, .thrown e) => (st, .err e)
  | r => r

/-! ## The `bridge-oft` tool handler -/

/-- The `bridge-oft` parameters after zod validation (`extraOptions`
defaulted to `"0x"`). -/
structure BridgeParams where
  tokenAddress : String
  amount : String
  fromChain : String
  toChain : String
  receiverAddress : String
  extraOptions : String
deriving DecidableEq, Repr

/-- The `SendParam` struct passed to `quoteSend` and `send` (`toAddr` is
the struct's `to` field, renamed because `to` is reserved). -/
structure SendParam where
  dstEid : Nat
  toAddr : String
  amountLD : Int
  minAmountLD : Int
  extraOptions : String
  composeMsg : String
  oftCmd : String
deriving DecidableEq, Repr

/-- The `MessagingFee` struct passed to `send`. -/
structure MessagingFee where
  nativeFee : Int
  lzTokenFee : Int
deriving DecidableEq, Repr

/-- A network interaction attempted by the bridge handler: resolving the
signer against the source chain, the (read-only) `quoteSend` call, and the
`send` transaction. -/
inductive BridgeOp where
  | resolveSigner (chainName : String)
  | quoteSend (tokenAddress : String) (p : SendParam) (payInLzToken : Bool)
  | send (tokenAddress : String) (p : SendParam) (fee : MessagingFee)
      (refundAddress : String) (txValue : Int)
deriving DecidableEq, Repr

/-- Outcomes of the chain interactions of one bridge request: the fee quote
(native fee and LayerZero-token fee) and the send transaction (send and
confirmation collapsed; returns the transaction hash). -/
structure BridgeEnv where
  quoteSendResult : SendParam → Except String (Int × Int)
  sendResult : SendParam → MessagingFee → String → Int → Except String String

/-- The success payload of the bridge tool.  `estimatedNativeFee` is the
`formatUnits` rendering of the native fee. -/
structure BridgeReceipt where
  transactionHash : String
  fromChain : String
  toChain : String
  amountSent : String
  sender : String
  receiver : String
  estimatedNativeFee : String
deriving DecidableEq, Repr

/-- Outcome of the bridge handler: success payload or error payload. -/
inductive BridgeResponse where
  | ok (r : BridgeReceipt)
  | err (text : String)
deriving DecidableEq, Repr

/-- The bridge catch block, shared by every throwing step. -/
def bridgeCatch (tr : List BridgeOp) (e : String) :
    List BridgeOp × BridgeResponse :=
  (tr, .err ("Error: Failed to bridge OFT: " ++ e))

/-- The `bridge-oft` handler body: ABI check, same-chain check, signer and
registry resolution, 18-decimal amount parsing, send-parameter
construction, fee quote and send. -/
def bridgeOft (cfg : ServerConfig) (env : BridgeEnv) (p : BridgeParams) :
    List BridgeOp × BridgeResponse :=
  if (!cfg.oftAbiOk) = true then
    ([], .err "Error: Placeholder ABI detected. Please replace OFT_ABI in layerzero-mcp.ts with your actual contract ABI to interact with existing contracts.")
  else if (p.fromChain == p.toChain) = true then
    ([], .err "Error: Source and destination chains cannot be the same.")
  else
    let tr : List BridgeOp := [.resolveSigner p.fromChain]
    match getSigner cfg.networks p.fromChain with
    | .error e => bridgeCatch tr e
    | .ok _ =>
      match getNetworkConfig cfg.networks p.fromChain with
      | .error e => bridgeCatch tr e
      | .ok _ =>
        match getNetworkConfig cfg.networks p.toChain with
        | .error e => bridgeCatch tr e
        | .ok toNetworkConfig =>
          match parseUnits p.amount 18 with
          | .error e => bridgeCatch tr e
          | .ok amountBigInt =>
            match formatAddressForLayerZero p.receiverAddress with
            | .error e => bridgeCatch tr e
            | .ok formattedReceiverAddress =>
              let sendParam : SendParam :=
                ⟨toNetworkConfig.lzEid, formattedReceiverAddress, amountBigInt,
                  amountBigInt,
                  (if p.extraOptions = "" then "0x" else p.extraOptions),
                  "0x", "0x"⟩
              let tr := tr ++ [.quoteSend p.tokenAddress sendParam false]
              match env.quoteSendResult sendParam with
              | .error e => bridgeCatch tr e
              | .ok (nativeFee, _lzFee) =>
                let messagingFee : MessagingFee := ⟨nativeFee, 0⟩
                let tr := tr ++ [.send p.tokenAddress sendParam messagingFee
                  cfg.signerAddress nativeFee]
                match env.sendResult sendParam messagingFee cfg.signerAddress
                    nativeFee with
                | .error e => bridgeCatch tr e
                | .ok txHash =>
                  (tr, .ok ⟨txHash, p.fromChain, p.toChain, p.amount,
                    cfg.signerAddress, p.receiverAddress,
                    formatUnits nativeFee 18⟩)

/-! ## Sample configurations, environments and requests

Concrete instances used to evaluate the handlers on closed inputs. -/

/-- A sample process configuration over the two shipped networks. -/
def sampleCfg : ServerConfig := {
  envOwnerAddress := some "0x00000000000000000000000000000000000000aa"
  oftAbiOk := true
  oftBytecode := "0x60"
  factoryAddresses := fun c =>
    if c = "ArbitrumSepolia" then some "0x754a2643Ce68e0e34510B1E246254f93946AE3a1"
    else if c = "baseSepolia" then some "0x754a2643Ce68e0e34510B1E246254f93946AE3a1"
    else none
  networks := NETWORKS "rpcA" "rpcB"
  encodeDeploy := fun _ => "0xab"
  signerAddress := "0x00000000000000000000000000000000000000bb" }

/-- A sample chain environment in which every interaction succeeds. -/
def sampleEnv : DeployEnv := {
  deployResult := fun c =>
    .ok (if c = "ArbitrumSepolia" then "0x00112233445566778899aabbccddeeff00112233"
         else "0xff112233445566778899aabbccddeeff00112233")
  setPeerResult := fun _ _ _ => .ok "0xaaa1"
  setEnforcedOptionsResult := fun _ _ => .ok "0xbbb1" }

/-- A sample two-chain deployment request. -/
def sampleParams : DeployParams :=
  ⟨"Gamma", "GMA", "1000000", 18, ["ArbitrumSepolia", "baseSepolia"], none⟩

/-- A sample single-chain deployment request. -/
def sampleParams1 : DeployParams :=
  { sampleParams with targetChains := ["ArbitrumSepolia"] }

/-- A single-chain request whose token name contains the substring
`FAILURE`. -/
def sampleParamsFailureName : DeployParams :=
  { sampleParams1 with tokenName := "FAILURE" }

/-- A third registry entry, for runs over more than two chains. -/
def sampleNetC : NetworkConfig :=
  ⟨"testnetC", "rpcC", 999, "0x6EDCE65403992e310A62460808c4b910D972f10f", 40999⟩

/-- The sample configuration extended with a third network. -/
def sampleCfg3 : ServerConfig :=
  { sampleCfg with
      networks := NETWORKS "rpcA" "rpcB" ++ [sampleNetC],
      factoryAddresses := fun c =>
        if c = "testnetC" then some "0x754a2643Ce68e0e34510B1E246254f93946AE3a1"
        else if c = "ArbitrumSepolia" then
          some "0x754a2643Ce68e0e34510B1E246254f93946AE3a1"
        else if c = "baseSepolia" then
          some "0x754a2643Ce68e0e34510B1E246254f93946AE3a1"
        else none }

/-- A three-chain deployment request. -/
def sampleParams3 : DeployParams :=
  { sampleParams with
      targetChains := ["ArbitrumSepolia", "baseSepolia", "testnetC"] }

/-- An environment in which the deployment on `baseSepolia` reverts. -/
def sampleEnvFailBase : DeployEnv :=
  { sampleEnv with
      deployResult := fun c =>
        if c = "baseSepolia" then .error "execution reverted"
        else sampleEnv.deployResult c }

/-- A sample bridge environment in which every interaction succeeds. -/
def sampleBridgeEnv : BridgeEnv := {
  quoteSendResult := fun _ => .ok (21000, 0)
  sendResult := fun _ _ _ _ => .ok "0xcafe" }

/-- A sample bridge request. -/
def sampleBridgeParams : BridgeParams :=
  ⟨"0x00112233445566778899aabbccddeeff00112233", "50", "ArbitrumSepolia",
    "baseSepolia", "0xff112233445566778899aabbccddeeff00112233", "0x"⟩

/-- The sample bridge request with equal source and destination chains. -/
def sampleBridgeParamsSame : BridgeParams :=
  { sampleBridgeParams with toChain := "ArbitrumSepolia" }

/-! ## Derived views and expected-outcome helpers

These definitions recompute, from the configuration and environment alone,
what the handler is expected to produce; the theorems below relate the
handler's actual output to them. -/

/-- Phase A succeeds: owner configured, artifacts usable, chains nonempty. -/
def phaseAOk (cfg : ServerConfig) (p : DeployParams) : Bool :=
  cfg.envOwnerAddress.isSome && cfg.oftAbiOk &&
    !(cfg.oftBytecode == "BYTECODE_PLACEHOLDER") && !(cfg.oftBytecode == "") &&
    !p.targetChains.isEmpty

/-- The constructor argument list built for chain `c` (meaningful only when
the registry lookup and the supply parse succeed). -/
def ctorArgsFor (cfg : ServerConfig) (p : DeployParams) (c : String) : CtorArgs :=
  match getNetworkConfig cfg.networks c, parseUnits p.initialTotalSupply 0 with
  | .ok ncfg, .ok ps =>
    ⟨p.tokenName, p.tokenSymbol, ps, ncfg.lzEndpoint, effectiveOwner cfg p⟩
  | _, _ => ⟨p.tokenName, p.tokenSymbol, 0, "", effectiveOwner cfg p⟩

/-- The packed bytecode-plus-arguments hex string for chain `c`. -/
def bcaFor (cfg : ServerConfig) (p : DeployParams) (c : String) : String :=
  match solidityPackedBytes2 (normBytecode cfg)
      (cfg.encodeDeploy (ctorArgsFor cfg p c)) with
  | .ok bca => bca
  | .error _ => ""

/-- Every step of one deployment iteration before the factory call
succeeds for chain `c`: registry lookup, supply parse, factory address,
and the bytecode packing. -/
def preDeployOk (cfg : ServerConfig) (p : DeployParams) (c : String) : Bool :=
  (getNetworkConfig cfg.networks c).isOk &&
    (parseUnits p.initialTotalSupply 0).isOk &&
    (cfg.factoryAddresses c).isSome &&
    (solidityPackedBytes2 (normBytecode cfg)
      (cfg.encodeDeploy (ctorArgsFor cfg p c))).isOk

/-- The whole deployment iteration succeeds for chain `c`. -/
def chainOk (cfg : ServerConfig) (env : DeployEnv) (p : DeployParams)
    (c : String) : Bool :=
  preDeployOk cfg p c && (env.deployResult c).isOk

/-- The deployment attempt the handler records for chain `c`. -/
def attemptOpFor (cfg : ServerConfig) (p : DeployParams) (c : String) : NetOp :=
  .deployAttempt c ((cfg.factoryAddresses c).getD "") (ctorArgsFor cfg p c)
    (bcaFor cfg p c) (computeSalt p.tokenName p.tokenSymbol)

/-- The `DeployedContractData` record produced for chain `c` on success. -/
def deployedFor (cfg : ServerConfig) (env : DeployEnv) (p : DeployParams)
    (c : String) : DeployedContractData :=
  match getNetworkConfig cfg.networks c, env.deployResult c with
  | .ok ncfg, .ok addr => ⟨c, addr, ncfg.lzEid, ncfg⟩
  | _, _ => ⟨c, "", 0, ⟨"", "", 0, "", 0⟩⟩

/-- The summary entry produced for chain `c` on success. -/
def successEntryFor (env : DeployEnv) (c : String) : DeploySummaryEntry :=
  ⟨c, (env.deployResult c).toOption, "Success", none⟩

/-- The failure message built by the deployment catch block. -/
def deployFailureMsg (cfg : ServerConfig) (p : DeployParams) (c e : String) :
    String :=
  "  FAILURE: Deploying on " ++ c ++ ": " ++ e ++ ", salt: \n        " ++
    computeSalt p.tokenName p.tokenSymbol ++ ", bytecode: " ++ bcaFor cfg p c

/-- The error payload text returned when deployment fails on chain `c`. -/
def deployFailureText (cfg : ServerConfig) (p : DeployParams) (c e : String) :
    String :=
  "Error: Failed to Deploy OFT: " ++ deployFailureMsg cfg p c e

/-- The peer-format rendering of a deployed contract's address. -/
def fmtAddr (b : DeployedContractData) : String :=
  match formatAddressForLayerZero b.address with
  | .ok s => s
  | .error _ => ""

/-- The `setPeer` operations of a fully successful peering phase: one per
ordered pair of distinct deployed chains, in loop order. -/
def expectedPeerOps (all : List DeployedContractData) : List NetOp :=
  all.flatMap (fun a =>
    (all.filter (fun b => ¬ (a.chainName = b.chainName))).map
      (fun b => NetOp.setPeer a.chainName a.address b.lzEid (fmtAddr b)))

/-- The `setEnforcedOptions` operations of a fully successful
enforced-options phase: one call per deployed chain. -/
def expectedEnforcedOps (all : List DeployedContractData) : List NetOp :=
  all.map (fun a =>
    NetOp.setEnforcedOptions a.chainName a.address (optionsToSetFor all a))

/-- Is the operation a deployment attempt? -/
def NetOp.isDeployAttempt : NetOp → Bool
  | .deployAttempt .. => true
  | _ => false

/-- Is the operation a `setPeer` call? -/
def NetOp.isSetPeer : NetOp → Bool
  | .setPeer .. => true
  | _ => false

/-- Is the operation a `setEnforcedOptions` call? -/
def NetOp.isSetEnforced : NetOp → Bool
  | .setEnforcedOptions .. => true
  | _ => false

/-- The salt of a deployment attempt. -/
def NetOp.saltOf : NetOp → Option String
  | .deployAttempt _ _ _ _ salt => some salt
  | _ => none

/-- The structured constructor arguments of a deployment attempt. -/
def NetOp.argsOf : NetOp → Option CtorArgs
  | .deployAttempt _ _ args _ _ => some args
  | _ => none

/-- The `setPeer` operations of a trace. -/
def peerOps (tr : List NetOp) : List NetOp := tr.filter NetOp.isSetPeer

/-- The `setEnforcedOptions` operations of a trace. -/
def enforcedOps (tr : List NetOp) : List NetOp := tr.filter NetOp.isSetEnforced

/-- Did the environment let this operation succeed? -/
def opSucceeded (env : DeployEnv) : NetOp → Bool
  | .deployAttempt c _ _ _ _ => (env.deployResult c).isOk
  | .setPeer c _ eid peer => (env.setPeerResult c eid peer).isOk
  | .setEnforcedOptions c _ opts => (env.setEnforcedOptionsResult c opts).isOk

/-- Is the response a success payload? -/
def isOkResp : ToolResponse → Bool
  | .ok _ => true
  | _ => false

/-- The overall status of a success payload. -/
def statusOf : ToolResponse → Option String
  | .ok r => some r.overallStatus
  | _ => none

/-- The `deployedContracts` list of a success payload. -/
def summaryOf : ToolResponse → List DeploySummaryEntry
  | .ok r => r.deployedContracts
  | _ => []

/-- The execution log of a success payload. -/
def logOf : ToolResponse → List String
  | .ok r => r.detailedExecutionLog
  | _ => []

/-- Invariant of the success path: every summary entry so far reports
`Success` and every attempted chain operation so far succeeded. -/
def goodState (env : DeployEnv) (st : HandlerState) : Prop :=
  (∀ s ∈ st.summary, s.deploymentStatus = "Success") ∧
  (∀ op ∈ st.trace, opSucceeded env op = true)

/-- The send parameters carried by a bridge operation. -/
def BridgeOp.sendParamOf : BridgeOp → Option SendParam
  | .quoteSend _ sp _ => some sp
  | .send _ sp _ _ _ => some sp
  | .resolveSigner _ => none

/-- The zod schema for the `decimals` request field:
`z.number().int().min(0).max(18).optional().default(18)` (the argument is
already integral here, so only the bounds and the default are modelled). -/
def decimalsSchemaParse (raw : Option Int) : Except String Nat :=
  match raw with
  | none => .ok 18
  | some d => if 0 ≤ d ∧ d ≤ 18 then .ok d.toNat else .error "invalid decimals"

/-- A well-formed 20-byte account address in hex-string form. -/
def isWellFormedAddress (s : String) : Bool :=
  match getBytesModel s with
  | .ok bs => bs.length == 20
  | .error _ => false

/-- A valid hex byte string of at most 32 bytes (what `zeroPadValue _ 32`
actually accepts). -/
def validBytesLe32 (s : String) : Bool :=
  match getBytesModel s with
  | .ok bs => bs.length ≤ 32
  | .error _ => false

/-! ## Basic lemmas about the codec layer -/

theorem hexDigitVal_lt {c : Char} {n : Nat} (h : hexDigitVal c = some n) :
    n < 16 := by
  unfold hexDigitVal at h
  by_cases h1 : 48 ≤ c.toNat ∧ c.toNat ≤ 57
  · rw [if_pos h1] at h; simp at h; omega
  · rw [if_neg h1] at h
    by_cases h2 : 97 ≤ c.toNat ∧ c.toNat ≤ 102
    · rw [if_pos h2] at h; simp at h; omega
    · rw [if_neg h2] at h
      by_cases h3 : 65 ≤ c.toNat ∧ c.toNat ≤ 70
      · rw [if_pos h3] at h; simp at h; omega
      · rw [if_neg h3] at h; simp at h

theorem parseHexPairs_cons2 (c1 c2 : Char) (rest : List Char) :
    parseHexPairs (c1 :: c2 :: rest) =
      match hexDigitVal c1, hexDigitVal c2, parseHexPairs rest with
      | some h, some l, some bs => some ((16 * h + l) :: bs)
      | _, _, _ => none := rfl

theorem parseHexPairs_lt : ∀ (cs : List Char) (bs : List Nat),
    parseHexPairs cs = some bs → ∀ b ∈ bs, b < 256
  | [], bs, h => by
    have h' : some ([] : List Nat) = some bs := h
    injection h' with h'
    subst h'
    intro b hb
    cases hb
  | [c], bs, h => by
    have h' : (none : Option (List Nat)) = some bs := h
    cases h'
  | c1 :: c2 :: rest, bs, h => by
    rw [parseHexPairs_cons2] at h
    cases h1 : hexDigitVal c1 with
    | none =>
      cases h2 : hexDigitVal c2 <;> cases h3 : parseHexPairs rest <;>
        rw [h1, h2, h3] at h <;> simp at h
    | some hv =>
      cases h2 : hexDigitVal c2 with
      | none =>
        cases h3 : parseHexPairs rest <;> rw [h1, h2, h3] at h <;> simp at h
      | some lv =>
        cases h3 : parseHexPairs rest with
        | none => rw [h1, h2, h3] at h; simp at h
        | some bs' =>
          rw [h1, h2, h3] at h
          simp at h
          intro b hb
          rw [← h] at hb
          rcases List.mem_cons.mp hb with rfl | hb
          · have g1 := hexDigitVal_lt h1
            have g2 := hexDigitVal_lt h2
            omega
          · exact parseHexPairs_lt rest bs' h3 b hb

theorem hexDigitVal_hexDigitChar :
    ∀ n < 16, hexDigitVal (hexDigitChar n) = some n := by
  decide

theorem parseHexPairs_flatMap (bs : List Nat) (h : ∀ b ∈ bs, b < 256) :
    parseHexPairs (bs.flatMap byteToHex) = some bs := by
  induction bs with
  | nil => rfl
  | cons b rest ih =>
    have hb : b < 256 := h b (List.mem_cons_self b rest)
    have hrest : ∀ x ∈ rest, x < 256 := fun x hx => h x (List.mem_cons_of_mem b hx)
    have hhi : b / 16 % 16 < 16 := Nat.mod_lt _ (by norm_num)
    have hlo : b % 16 < 16 := Nat.mod_lt _ (by norm_num)
    have hflat : (b :: rest).flatMap byteToHex =
        hexDigitChar (b / 16 % 16) :: hexDigitChar (b % 16) ::
          rest.flatMap byteToHex := by
      simp [byteToHex]
    rw [hflat, parseHexPairs_cons2, hexDigitVal_hexDigitChar _ hhi,
      hexDigitVal_hexDigitChar _ hlo, ih hrest]
    show some ((16 * (b / 16 % 16) + b % 16) :: rest) = some (b :: rest)
    have hb' : 16 * (b / 16 % 16) + b % 16 = b := by omega
    rw [hb']

theorem getBytesAux_0x (l : List Char) :
    getBytesAux ('0' :: 'x' :: l) =
      match parseHexPairs l with
      | some bs => .ok bs
      | none => .error "invalid BytesLike value" := rfl

theorem getBytes_hexlify (bs : List Nat) (h : ∀ b ∈ bs, b < 256) :
    getBytesModel (hexlify bs) = .ok bs := by
  unfold getBytesModel hexlify
  rw [String.data_append]
  show getBytesAux ('0' :: 'x' :: bs.flatMap byteToHex) = .ok bs
  rw [getBytesAux_0x, parseHexPairs_flatMap bs h]

theorem getBytesModel_lt {s : String} {bs : List Nat}
    (h : getBytesModel s = .ok bs) : ∀ b ∈ bs, b < 256 := by
  unfold getBytesModel getBytesAux at h
  split at h
  · split at h
    · next bs' hp =>
      simp at h
      subst h
      exact parseHexPairs_lt _ _ hp
    · simp at h
  · simp at h

theorem strContains_of_infix {s pat : String} (h : pat.data <:+: s.data) :
    strContains s pat = true := by
  unfold strContains
  rcases h with ⟨l1, l2, hdecomp⟩
  apply List.any_eq_true.mpr
  refine ⟨pat.data ++ l2, ?_, ?_⟩
  · apply (List.mem_tails _ _).mpr
    exact ⟨l1, by rw [← hdecomp, List.append_assoc]⟩
  · exact List.isPrefixOf_iff_prefix.mpr (List.prefix_append _ _)

/-! ## C8: the address codec on well-formed 20-byte addresses -/

/-- C8: for every well-formed 20-byte account address,
`formatAddressForLayerZero` returns the 32-byte left-zero-padded value:
the result parses back to exactly 32 bytes, of which the first 12 are zero
and the last 20 are the input bytes. -/
theorem formatAddress_pads_20_byte_address (addr : String) (bytes : List Nat)
    (hb : getBytesModel addr = .ok bytes) (hlen : bytes.length = 20) :
    formatAddressForLayerZero addr =
      .ok (hexlify (List.replicate 12 0 ++ bytes)) ∧
    getBytesModel (hexlify (List.replicate 12 0 ++ bytes)) =
      .ok (List.replicate 12 0 ++ bytes) ∧
    (List.replicate 12 0 ++ bytes).length = 32 ∧
    (List.replicate 12 0 ++ bytes).take 12 = List.replicate 12 0 ∧
    (List.replicate 12 0 ++ bytes).drop 12 = bytes := by
  have hlt : ∀ b ∈ bytes, b < 256 := getBytesModel_lt hb
  have hpadlt : ∀ b ∈ List.replicate 12 0 ++ bytes, b < 256 := by
    intro b hmem
    rcases List.mem_append.mp hmem with hmem | hmem
    · have := List.eq_of_mem_replicate hmem
      omega
    · exact hlt b hmem
  refine ⟨?_, getBytes_hexlify _ hpadlt, ?_, ?_, ?_⟩
  · unfold formatAddressForLayerZero zeroPadValue
    split
    · next e he => rw [hb] at he; simp at he
    · next bs hkk =>
      have hbb : bytes = bs := by
        have := hb.symm.trans hkk
        injection this
      subst hbb
      have hnot : ¬ (32 < bytes.length) := by omega
      rw [if_neg hnot]
      have h12 : 32 - bytes.length = 12 := by omega
      rw [h12]
  · simp [hlen]
  · exact List.take_left' (by simp)
  · exact List.drop_left' (by simp)

/-- Witness for C8 at a concrete 20-byte address. -/
theorem formatAddress_pads_20_byte_address_witness :
    getBytesModel "0x00112233445566778899aabbccddeeff00112233" =
      .ok [0x00, 0x11, 0x22, 0x33, 0x44, 0x55, 0x66, 0x77, 0x88, 0x99,
        0xaa, 0xbb, 0xcc, 0xdd, 0xee, 0xff, 0x00, 0x11, 0x22, 0x33] ∧
    ([0x00, 0x11, 0x22, 0x33, 0x44, 0x55, 0x66, 0x77, 0x88, 0x99,
        0xaa, 0xbb, 0xcc, 0xdd, 0xee, 0xff, 0x00, 0x11, 0x22, 0x33] :
      List Nat).length = 20 ∧
    formatAddressForLayerZero "0x00112233445566778899aabbccddeeff00112233" =
      .ok (hexlify (List.replicate 12 0 ++
        [0x00, 0x11, 0x22, 0x33, 0x44, 0x55, 0x66, 0x77, 0x88, 0x99,
          0xaa, 0xbb, 0xcc, 0xdd, 0xee, 0xff, 0x00, 0x11, 0x22, 0x33])) :=
  ⟨by decide, by decide,
    (formatAddress_pads_20_byte_address _ _ (by decide) (by decide)).1⟩

/-! ## C9: the address codec on malformed inputs (corrected) -/

/-- Counterexample to C9 as stated: `"0x1234"` is not a well-formed 20-byte
address, yet `formatAddressForLayerZero` succeeds on it (left-padding it to
32 bytes) instead of failing. -/
theorem formatAddress_malformed_input_succeeds :
    isWellFormedAddress "0x1234" = false ∧
    (formatAddressForLayerZero "0x1234").isOk = true := by
  constructor
  · decide
  · decide

/-- C9 (amended): `formatAddressForLayerZero` is pure and total; it succeeds
exactly on valid hex byte strings of at most 32 bytes — in particular on
every well-formed 20-byte address, but also on shorter or longer-up-to-32
byte strings — and fails on the rest (with ethers' invalid-BytesLike or
buffer-overrun errors rather than a dedicated `InvalidAddress` kind). -/
theorem formatAddress_isOk_iff (s : String) :
    (formatAddressForLayerZero s).isOk = validBytesLe32 s := by
  unfold formatAddressForLayerZero zeroPadValue validBytesLe32
  cases h : getBytesModel s with
  | error e => rfl
  | ok bs =>
    show (if 32 < bs.length then (Except.error "padding exceeds data size" :
          Except String String)
        else Except.ok (hexlify (List.replicate (32 - bs.length) 0 ++ bs))).isOk
      = decide (bs.length ≤ 32)
    by_cases hlen : 32 < bs.length
    · rw [if_pos hlen]
      have hd : decide (bs.length ≤ 32) = false := decide_eq_false (by omega)
      rw [hd]
      rfl
    · rw [if_neg hlen]
      have hd : decide (bs.length ≤ 32) = true := decide_eq_true (by omega)
      rw [hd]
      rfl

/-! ## C5: same-chain bridge requests are rejected before any network call -/

/-- C5: for every bridge request with `fromChain` equal to `toChain` (on a
configured ABI), the handler returns the same-chain `InvalidRequest` error
payload and its trace is empty: no signer resolution, no fee quote and no
send is attempted, so no chain state is changed. -/
theorem bridge_same_chain_rejected (cfg : ServerConfig) (env : BridgeEnv)
    (p : BridgeParams) (habi : cfg.oftAbiOk = true)
    (hsame : p.fromChain = p.toChain) :
    bridgeOft cfg env p =
      ([], .err "Error: Source and destination chains cannot be the same.") := by
  unfold bridgeOft
  simp [habi, hsame]

/-- Witness for C5 at a concrete same-chain request. -/
theorem bridge_same_chain_rejected_witness :
    sampleCfg.oftAbiOk = true ∧
    sampleBridgeParamsSame.fromChain = sampleBridgeParamsSame.toChain ∧
    bridgeOft sampleCfg sampleBridgeEnv sampleBridgeParamsSame =
      ([], .err "Error: Source and destination chains cannot be the same.") :=
  ⟨rfl, rfl, bridge_same_chain_rejected _ _ _ rfl rfl⟩

/-! ## C6: bridge amounts are parsed with 18 decimals, no slippage -/

set_option maxRecDepth 4000 in
/-- C6: in every bridge run, every send-parameter value the handler passes
to the fee quote or to the send carries the 18-decimal parse of the request
amount in both `amountLD` and `minAmountLD` (identical, no slippage); and
the amount string `"50"` parses to exactly `50 * 10 ^ 18`. -/
theorem bridge_amount_always_18_decimals (cfg : ServerConfig)
    (env : BridgeEnv) (p : BridgeParams) :
    ((bridgeOft cfg env p).1.all (fun op =>
      match BridgeOp.sendParamOf op, parseUnits p.amount 18 with
      | none, _ => true
      | some sp, .ok v => (sp.amountLD == sp.minAmountLD) && (sp.amountLD == v)
      | some _, .error _ => false)) = true ∧
    parseUnits "50" 18 = .ok (50 * 10 ^ 18) := by
  constructor
  · unfold bridgeOft bridgeCatch
    repeat' split
    all_goals simp_all [BridgeOp.sendParamOf, List.all_append]
    all_goals repeat' split
    all_goals simp_all [BridgeOp.sendParamOf, List.all_append]
  · decide

/-! ## Deployment-loop lemmas -/

theorem ctorArgsFor_eq {cfg : ServerConfig} {p : DeployParams} {c : String}
    {ncfg : NetworkConfig} {ps : Int}
    (hn : getNetworkConfig cfg.networks c = .ok ncfg)
    (hp : parseUnits p.initialTotalSupply 0 = .ok ps) :
    ctorArgsFor cfg p c =
      ⟨p.tokenName, p.tokenSymbol, ps, ncfg.lzEndpoint, effectiveOwner cfg p⟩ := by
  unfold ctorArgsFor
  rw [hn, hp]

theorem deployedFor_eq {cfg : ServerConfig} {env : DeployEnv}
    {p : DeployParams} {c : String} {ncfg : NetworkConfig} {addr : String}
    (hn : getNetworkConfig cfg.networks c = .ok ncfg)
    (hd : env.deployResult c = .ok addr) :
    deployedFor cfg env p c = ⟨c, addr, ncfg.lzEid, ncfg⟩ := by
  unfold deployedFor
  rw [hn, hd]

theorem deployedFor_chainName (cfg : ServerConfig) (env : DeployEnv)
    (p : DeployParams) (c : String) :
    (deployedFor cfg env p c).chainName = c := by
  unfold deployedFor
  split <;> rfl

theorem attemptOpFor_eq {cfg : ServerConfig} {p : DeployParams} {c : String}
    {fa bca : String}
    (hfa : cfg.factoryAddresses c = some fa)
    (hsp : solidityPackedBytes2 (normBytecode cfg)
      (cfg.encodeDeploy (ctorArgsFor cfg p c)) = .ok bca) :
    attemptOpFor cfg p c =
      .deployAttempt c fa (ctorArgsFor cfg p c) bca
        (computeSalt p.tokenName p.tokenSymbol) := by
  unfold attemptOpFor bcaFor
  rw [hfa, hsp]
  rfl

theorem successEntryFor_eq {env : DeployEnv} {c addr : String}
    (hd : env.deployResult c = .ok addr) :
    successEntryFor env c = ⟨c, some addr, "Success", none⟩ := by
  unfold successEntryFor
  rw [hd]
  rfl

theorem deployIter_success (cfg : ServerConfig) (env : DeployEnv)
    (p : DeployParams) (c : String) (st : HandlerState)
    (hok : chainOk cfg env p c = true) :
    (deployIter cfg env (normBytecode cfg) (effectiveOwner cfg p) p st c).2 =
      none ∧
    (deployIter cfg env (normBytecode cfg) (effectiveOwner cfg p) p st c).1 =
      { log := (deployIter cfg env (normBytecode cfg) (effectiveOwner cfg p)
          p st c).1.log,
        summary := st.summary ++ [successEntryFor env c],
        deployed := st.deployed ++ [deployedFor cfg env p c],
        peeringResults := st.peeringResults,
        enforcedOptionsResults := st.enforcedOptionsResults,
        trace := st.trace ++ [attemptOpFor cfg p c] } := by
  unfold chainOk preDeployOk at hok
  simp only [Bool.and_eq_true] at hok
  obtain ⟨⟨⟨⟨hn', hp'⟩, hfa'⟩, hsp'⟩, hd'⟩ := hok
  cases hn : getNetworkConfig cfg.networks c with
  | error e => rw [hn] at hn'; simp [Except.isOk, Except.toBool] at hn'
  | ok ncfg =>
  cases hp : parseUnits p.initialTotalSupply 0 with
  | error e => rw [hp] at hp'; simp [Except.isOk, Except.toBool] at hp'
  | ok ps =>
  cases hfa : cfg.factoryAddresses c with
  | none => rw [hfa] at hfa'; simp at hfa'
  | some fa =>
  cases hsp : solidityPackedBytes2 (normBytecode cfg)
      (cfg.encodeDeploy (ctorArgsFor cfg p c)) with
  | error e => rw [hsp] at hsp'; simp [Except.isOk, Except.toBool] at hsp'
  | ok bca =>
  cases hd : env.deployResult c with
  | error e => rw [hd] at hd'; simp [Except.isOk, Except.toBool] at hd'
  | ok addr =>
  have hargs := ctorArgsFor_eq hn hp
  have hsp2 : solidityPackedBytes2 (normBytecode cfg)
      (cfg.encodeDeploy ⟨p.tokenName, p.tokenSymbol, ps, ncfg.lzEndpoint,
        effectiveOwner cfg p⟩) = .ok bca := by
    rw [← hargs]; exact hsp
  rw [deployedFor_eq hn hd, successEntryFor_eq hd, attemptOpFor_eq hfa hsp,
    hargs]
  unfold deployIter getSigner
  simp only [hn, hp, hfa, hsp2, hd]
  constructor
  · first | rfl | trivial
  · first | rfl | trivial

theorem deployIter_failEnv (cfg : ServerConfig) (env : DeployEnv)
    (p : DeployParams) (c : String) (st : HandlerState) (e : String)
    (hpre : preDeployOk cfg p c = true)
    (hd : env.deployResult c = .error e) :
    (deployIter cfg env (normBytecode cfg) (effectiveOwner cfg p) p st c).2 =
      some (.err (deployFailureText cfg p c e)) ∧
    (deployIter cfg env (normBytecode cfg) (effectiveOwner cfg p) p st c).1 =
      { log := (deployIter cfg env (normBytecode cfg) (effectiveOwner cfg p)
          p st c).1.log,
        summary := st.summary ++ [⟨c, none, "Failed", some e⟩],
        deployed := st.deployed,
        peeringResults := st.peeringResults,
        enforcedOptionsResults := st.enforcedOptionsResults,
        trace := st.trace ++ [attemptOpFor cfg p c] } := by
  unfold preDeployOk at hpre
  simp only [Bool.and_eq_true] at hpre
  obtain ⟨⟨⟨hn', hp'⟩, hfa'⟩, hsp'⟩ := hpre
  cases hn : getNetworkConfig cfg.networks c with
  | error e2 => rw [hn] at hn'; simp [Except.isOk, Except.toBool] at hn'
  | ok ncfg =>
  cases hp : parseUnits p.initialTotalSupply 0 with
  | error e2 => rw [hp] at hp'; simp [Except.isOk, Except.toBool] at hp'
  | ok ps =>
  cases hfa : cfg.factoryAddresses c with
  | none => rw [hfa] at hfa'; simp at hfa'
  | some fa =>
  cases hsp : solidityPackedBytes2 (normBytecode cfg)
      (cfg.encodeDeploy (ctorArgsFor cfg p c)) with
  | error e2 => rw [hsp] at hsp'; simp [Except.isOk, Except.toBool] at hsp'
  | ok bca =>
  have hargs := ctorArgsFor_eq hn hp
  have hsp2 : solidityPackedBytes2 (normBytecode cfg)
      (cfg.encodeDeploy ⟨p.tokenName, p.tokenSymbol, ps, ncfg.lzEndpoint,
        effectiveOwner cfg p⟩) = .ok bca := by
    rw [← hargs]; exact hsp
  have hbca : bcaFor cfg p c = bca := by
    unfold bcaFor; rw [hsp]
  rw [attemptOpFor_eq hfa hsp, hargs]
  unfold deployFailureText deployFailureMsg
  rw [hbca]
  unfold deployIter deployCatch getSigner
  simp only [hn, hp, hfa, hsp2, hd]
  constructor
  · first | rfl | trivial
  · first | rfl | trivial

theorem deployLoop_cons (cfg : ServerConfig) (env : DeployEnv)
    (bytecode deployOwner : String) (p : DeployParams) (c : String)
    (rest : List String) (st : HandlerState) :
    deployLoop cfg env bytecode deployOwner p (c :: rest) st =
      match deployIter cfg env bytecode deployOwner p st c with
      | (st', some r) => (st', some r)
      | (st', none) => deployLoop cfg env bytecode deployOwner p rest st' :=
  rfl

theorem deployLoop_append (cfg : ServerConfig) (env : DeployEnv)
    (bytecode deployOwner : String) (p : DeployParams) :
    ∀ (l1 l2 : List String) (st : HandlerState),
    deployLoop cfg env bytecode deployOwner p (l1 ++ l2) st =
      match deployLoop cfg env bytecode deployOwner p l1 st with
      | (st', none) => deployLoop cfg env bytecode deployOwner p l2 st'
      | (st', some r) => (st', some r)
  | [], l2, st => by simp [deployLoop]
  | c :: rest, l2, st => by
    rw [List.cons_append, deployLoop_cons, deployLoop_cons]
    rcases deployIter cfg env bytecode deployOwner p st c with ⟨st1, r1⟩
    cases r1 with
    | none =>
      simp only
      exact deployLoop_append cfg env bytecode deployOwner p rest l2 st1
    | some r =>
      simp only

theorem deployLoop_success (cfg : ServerConfig) (env : DeployEnv)
    (p : DeployParams) :
    ∀ (chains : List String) (st : HandlerState),
    (∀ c ∈ chains, chainOk cfg env p c = true) →
    (deployLoop cfg env (normBytecode cfg) (effectiveOwner cfg p) p chains
      st).2 = none ∧
    (deployLoop cfg env (normBytecode cfg) (effectiveOwner cfg p) p chains
      st).1 =
      { log := (deployLoop cfg env (normBytecode cfg) (effectiveOwner cfg p)
          p chains st).1.log,
        summary := st.summary ++ chains.map (successEntryFor env),
        deployed := st.deployed ++ chains.map (deployedFor cfg env p),
        peeringResults := st.peeringResults,
        enforcedOptionsResults := st.enforcedOptionsResults,
        trace := st.trace ++ chains.map (attemptOpFor cfg p) }
  | [], st, h => by simp [deployLoop]
  | c :: rest, st, h => by
    have hc := h c (List.mem_cons_self c rest)
    have hrest : ∀ c' ∈ rest, chainOk cfg env p c' = true :=
      fun c' hc' => h c' (List.mem_cons_of_mem c hc')
    obtain ⟨h2, h1⟩ := deployIter_success cfg env p c st hc
    rcases hit : deployIter cfg env (normBytecode cfg) (effectiveOwner cfg p)
        p st c with ⟨st1, r1⟩
    rw [hit] at h1 h2
    simp only at h1 h2
    subst h2
    have hsummary : st1.summary = st.summary ++ [successEntryFor env c] := by
      rw [h1]
    have hdeployed : st1.deployed = st.deployed ++ [deployedFor cfg env p c] := by
      rw [h1]
    have hpeering : st1.peeringResults = st.peeringResults := by rw [h1]
    have henforced : st1.enforcedOptionsResults = st.enforcedOptionsResults := by
      rw [h1]
    have htrace : st1.trace = st.trace ++ [attemptOpFor cfg p c] := by rw [h1]
    rw [deployLoop_cons]
    simp only [hit]
    obtain ⟨i2, i1⟩ := deployLoop_success cfg env p rest st1 hrest
    refine ⟨i2, ?_⟩
    rw [i1, hsummary, hdeployed, hpeering, henforced, htrace]
    simp [List.append_assoc]

theorem phaseAOk_parts {cfg : ServerConfig} {p : DeployParams}
    (h : phaseAOk cfg p = true) :
    ∃ o, cfg.envOwnerAddress = some o ∧ cfg.oftAbiOk = true ∧
      (cfg.oftBytecode == "BYTECODE_PLACEHOLDER") = false ∧
      (cfg.oftBytecode == "") = false ∧ p.targetChains.isEmpty = false := by
  unfold phaseAOk at h
  simp only [Bool.and_eq_true, Bool.not_eq_true'] at h
  obtain ⟨⟨⟨⟨ho, habi⟩, hb1⟩, hb2⟩, hempty⟩ := h
  cases hoo : cfg.envOwnerAddress with
  | none => rw [hoo] at ho; simp at ho
  | some o => exact ⟨o, rfl, habi, hb1, hb2, hempty⟩

theorem deployHandler_toLoop {cfg : ServerConfig} {env : DeployEnv}
    {p : DeployParams} (hA : phaseAOk cfg p = true) :
    ∃ st0 : HandlerState,
      st0.summary = [] ∧ st0.deployed = [] ∧ st0.peeringResults = [] ∧
      st0.enforcedOptionsResults = [] ∧ st0.trace = [] ∧
      deployAndConfigureOftMultichain cfg env p =
        (match deployLoop cfg env (normBytecode cfg) (effectiveOwner cfg p) p
            p.targetChains st0 with
         | (st, some r) => (st, r)
         | (st, none) => configurePhases env st) := by
  obtain ⟨o, ho, habi, hb1, hb2, hempty⟩ := phaseAOk_parts hA
  refine ⟨⟨["Phase A: Initial Checks & Setup started.",
    "OWNER_ADDRESS found: " ++ o,
    "OFT_ABI and OFT_BYTECODE are not placeholders.",
    "Target chains for deployment: " ++ String.intercalate ", " p.targetChains,
    "Initialization complete.",
    "\nPhase B: Deployment Phase started.",
    "Deployment owner set to: " ++ effectiveOwner cfg p],
    [], [], [], [], []⟩, rfl, rfl, rfl, rfl, rfl, ?_⟩
  unfold deployAndConfigureOftMultichain
  simp only [ho, habi, hb1, hb2, hempty, Bool.not_true, Bool.false_or,
    Bool.or_self, Bool.false_eq_true, if_false]
  rfl

theorem attemptOpFor_isDeploy (cfg : ServerConfig) (p : DeployParams)
    (c : String) : (attemptOpFor cfg p c).isDeployAttempt = true :=
  rfl

/-! ## C1: fail-fast on a deployment failure -/

/-- C1: when every chain before position K deploys successfully, the
iteration for K reaches the factory call, and that deployment fails, then
the tool returns the error payload built from the underlying error text
(which the payload contains as a substring), the trace consists of exactly
one deployment attempt per chain up to and including K — so no deployment
is attempted on any later chain — and no `setPeer` or `setEnforcedOptions`
operation is ever performed. -/
theorem deploy_failure_aborts_request (cfg : ServerConfig) (env : DeployEnv)
    (p : DeployParams) (pre : List String) (c : String) (rest : List String)
    (e : String)
    (hA : phaseAOk cfg p = true)
    (hchains : p.targetChains = pre ++ c :: rest)
    (hpre : ∀ c' ∈ pre, chainOk cfg env p c' = true)
    (hc : preDeployOk cfg p c = true)
    (hfail : env.deployResult c = .error e) :
    (deployTool cfg env p).2 = .err (deployFailureText cfg p c e) ∧
    (deployTool cfg env p).1.trace = (pre ++ [c]).map (attemptOpFor cfg p) ∧
    (∀ op ∈ (deployTool cfg env p).1.trace, op.isDeployAttempt = true) ∧
    strContains (deployFailureText cfg p c e) e = true := by
  obtain ⟨st0, hsum0, hdep0, hpr0, her0, htr0, hrun⟩ :=
    @deployHandler_toLoop cfg env p hA
  -- run the loop over the prefix
  obtain ⟨s2, s1⟩ := deployLoop_success cfg env p pre st0 hpre
  rcases hloop1 : deployLoop cfg env (normBytecode cfg) (effectiveOwner cfg p)
      p pre st0 with ⟨st1, r1⟩
  rw [hloop1] at s1 s2
  simp only at s1 s2
  subst s2
  -- the failing iteration
  obtain ⟨f2, f1⟩ := deployIter_failEnv cfg env p c st1 e hc hfail
  rcases hiter : deployIter cfg env (normBytecode cfg) (effectiveOwner cfg p)
      p st1 c with ⟨st2, r2⟩
  rw [hiter] at f1 f2
  simp only at f1 f2
  subst f2
  -- assemble the whole-run equation
  have hwhole : deployLoop cfg env (normBytecode cfg) (effectiveOwner cfg p) p
      p.targetChains st0 =
      (st2, some (.err (deployFailureText cfg p c e))) := by
    rw [hchains, deployLoop_append, hloop1]
    simp only
    rw [deployLoop_cons, hiter]
  have hhandler : deployAndConfigureOftMultichain cfg env p =
      (st2, .err (deployFailureText cfg p c e)) := by
    rw [hrun, hwhole]
  have htool : deployTool cfg env p =
      (st2, .err (deployFailureText cfg p c e)) := by
    unfold deployTool
    rw [hhandler]
  have htrace : st2.trace = (pre ++ [c]).map (attemptOpFor cfg p) := by
    have h1 : st2.trace = st1.trace ++ [attemptOpFor cfg p c] := by rw [f1]
    have h2 : st1.trace = st0.trace ++ pre.map (attemptOpFor cfg p) := by
      rw [s1]
    rw [h1, h2, htr0, List.nil_append, List.map_append]
    rfl
  refine ⟨by rw [htool], by rw [htool]; exact htrace, ?_, ?_⟩
  · rw [htool]
    simp only
    rw [htrace]
    intro op hop
    obtain ⟨c', _, rfl⟩ := List.mem_map.mp hop
    exact attemptOpFor_isDeploy cfg p c'
  · apply strContains_of_infix
    refine ⟨("Error: Failed to Deploy OFT: " ++
      ("  FAILURE: Deploying on " ++ c ++ ": ")).data,
      (", salt: \n        " ++ computeSalt p.tokenName p.tokenSymbol ++
        ", bytecode: " ++ bcaFor cfg p c).data, ?_⟩
    unfold deployFailureText deployFailureMsg
    simp [String.data_append, List.append_assoc]

set_option maxRecDepth 100000 in
/-- Witness for C1: a three-chain request failing on the second chain. -/
theorem deploy_failure_aborts_request_witness :
    phaseAOk sampleCfg3 sampleParams3 = true ∧
    sampleParams3.targetChains =
      ["ArbitrumSepolia"] ++ "baseSepolia" :: ["testnetC"] ∧
    (∀ c' ∈ ["ArbitrumSepolia"],
      chainOk sampleCfg3 sampleEnvFailBase sampleParams3 c' = true) ∧
    preDeployOk sampleCfg3 sampleParams3 "baseSepolia" = true ∧
    sampleEnvFailBase.deployResult "baseSepolia" =
      .error "execution reverted" ∧
    ((deployTool sampleCfg3 sampleEnvFailBase sampleParams3).2 =
      .err (deployFailureText sampleCfg3 sampleParams3 "baseSepolia"
        "execution reverted") ∧
    (deployTool sampleCfg3 sampleEnvFailBase sampleParams3).1.trace =
      (["ArbitrumSepolia"] ++ ["baseSepolia"]).map
        (attemptOpFor sampleCfg3 sampleParams3) ∧
    (∀ op ∈ (deployTool sampleCfg3 sampleEnvFailBase sampleParams3).1.trace,
      op.isDeployAttempt = true) ∧
    strContains (deployFailureText sampleCfg3 sampleParams3 "baseSepolia"
      "execution reverted") "execution reverted" = true) :=
  ⟨by decide, rfl, by decide, by decide, by decide,
    deploy_failure_aborts_request sampleCfg3 sampleEnvFailBase sampleParams3
      ["ArbitrumSepolia"] "baseSepolia" ["testnetC"] "execution reverted"
      (by decide) rfl (by decide) (by decide) (by decide)⟩

theorem optionsToSetFor_single (dd : DeployedContractData) :
    optionsToSetFor [dd] dd = [] := by
  simp [optionsToSetFor]

theorem configurePhases_single (env : DeployEnv) (st : HandlerState)
    (dd : DeployedContractData) (hdep : st.deployed = [dd]) :
    isOkResp (configurePhases env st).2 = true ∧
    (configurePhases env st).1.trace = st.trace ∧
    (configurePhases env st).1.peeringResults = st.peeringResults ++
      ["Skipping peering phase: Less than 2 contracts successfully deployed."] ∧
    (configurePhases env st).1.enforcedOptionsResults =
      st.enforcedOptionsResults ++
      ["  Configuring enforced options on " ++ dd.chainName ++ " (Address: " ++
        dd.address ++ "):" ++ " No peers to set enforced options for."] := by
  simp [configurePhases, peeringPhase, enforcedPhase, enforcedLoop,
    enforcedStep, hdep, optionsToSetFor_single, isOkResp]

/-! ## C4: one successful deployment skips peering, no-op enforced options -/

/-- C4: for a request deploying to exactly one chain which succeeds, the
tool returns a success payload (not an error), performs no `setPeer` and no
`setEnforcedOptions` operation, records the peering skip notice, and still
runs the enforced-options phase for the single contract, which ends in the
empty-peer-list no-op notice. -/
theorem single_success_skips_peering (cfg : ServerConfig) (env : DeployEnv)
    (p : DeployParams) (c : String)
    (hA : phaseAOk cfg p = true)
    (hchains : p.targetChains = [c])
    (hok : chainOk cfg env p c = true) :
    isOkResp (deployTool cfg env p).2 = true ∧
    peerOps (deployTool cfg env p).1.trace = [] ∧
    enforcedOps (deployTool cfg env p).1.trace = [] ∧
    (deployTool cfg env p).1.peeringResults =
      ["Skipping peering phase: Less than 2 contracts successfully deployed."] ∧
    (deployTool cfg env p).1.enforcedOptionsResults =
      ["  Configuring enforced options on " ++ c ++ " (Address: " ++
        (deployedFor cfg env p c).address ++ "):" ++
        " No peers to set enforced options for."] := by
  obtain ⟨st0, hsum0, hdep0, hpr0, her0, htr0, hrun⟩ :=
    @deployHandler_toLoop cfg env p hA
  rw [hchains] at hrun
  obtain ⟨s2, s1⟩ := deployLoop_success cfg env p [c] st0
    (by intro c' hc'; rw [List.mem_singleton] at hc'; subst hc'; exact hok)
  rcases hloop : deployLoop cfg env (normBytecode cfg) (effectiveOwner cfg p)
      p [c] st0 with ⟨st1, r1⟩
  rw [hloop] at s1 s2
  simp only at s1 s2
  subst s2
  rw [hloop] at hrun
  simp only at hrun
  have hdeployed : st1.deployed = [deployedFor cfg env p c] := by
    rw [s1]; simp [hdep0]
  have hpeerres : st1.peeringResults = [] := by rw [s1]; simp [hpr0]
  have henfres : st1.enforcedOptionsResults = [] := by rw [s1]; simp [her0]
  have htrace : st1.trace = [attemptOpFor cfg p c] := by
    rw [s1]; simp [htr0]
  obtain ⟨k1, k2, k3, k4⟩ :=
    configurePhases_single env st1 (deployedFor cfg env p c) hdeployed
  have htool : deployTool cfg env p = configurePhases env st1 := by
    unfold deployTool
    rw [hrun]
    rcases hc2 : configurePhases env st1 with ⟨stx, rx⟩
    rw [hc2] at k1
    simp only at k1
    cases rx with
    | ok r => rfl
    | err t => rfl
    | thrown m => simp [isOkResp] at k1
  rw [htool]
  refine ⟨k1, ?_, ?_, ?_, ?_⟩
  · rw [k2, htrace]
    simp [peerOps, NetOp.isSetPeer, attemptOpFor]
  · rw [k2, htrace]
    simp [enforcedOps, NetOp.isSetEnforced, attemptOpFor]
  · rw [k3, hpeerres]
    rfl
  · rw [k4, henfres, deployedFor_chainName]
    rfl

set_option maxRecDepth 100000 in
/-- Witness for C4 at a concrete single-chain request. -/
theorem single_success_skips_peering_witness :
    phaseAOk sampleCfg sampleParams1 = true ∧
    sampleParams1.targetChains = ["ArbitrumSepolia"] ∧
    chainOk sampleCfg sampleEnv sampleParams1 "ArbitrumSepolia" = true ∧
    (isOkResp (deployTool sampleCfg sampleEnv sampleParams1).2 = true ∧
    peerOps (deployTool sampleCfg sampleEnv sampleParams1).1.trace = [] ∧
    enforcedOps (deployTool sampleCfg sampleEnv sampleParams1).1.trace = []) :=
  ⟨by decide, rfl, by decide,
    match single_success_skips_peering sampleCfg sampleEnv sampleParams1
      "ArbitrumSepolia" (by decide) rfl (by decide) with
    | ⟨a, b, d, _, _⟩ => ⟨a, b, d⟩⟩

/-! ## Trace-membership lemmas for arbitrary runs -/

theorem deployTool_fst (cfg : ServerConfig) (env : DeployEnv)
    (p : DeployParams) :
    (deployTool cfg env p).1 = (deployAndConfigureOftMultichain cfg env p).1 := by
  unfold deployTool
  rcases deployAndConfigureOftMultichain cfg env p with ⟨st, r⟩
  cases r <;> rfl

theorem deployIter_trace_mem (cfg : ServerConfig) (env : DeployEnv)
    (bc ow : String) (p : DeployParams) (st : HandlerState) (c : String) :
    ∀ op ∈ (deployIter cfg env bc ow p st c).1.trace,
      op ∈ st.trace ∨
      (op.saltOf = some (computeSalt p.tokenName p.tokenSymbol) ∧
       ∃ args, op.argsOf = some args ∧
         parseUnits p.initialTotalSupply 0 = .ok args.initialSupply) := by
  intro op hop
  unfold deployIter deployCatch getSigner at hop
  simp only [catchSome] at hop
  repeat' split at hop
  all_goals simp only [List.mem_append, List.mem_singleton] at hop
  all_goals first
    | exact Or.inl hop
    | (rcases hop with hop | rfl
       · exact Or.inl hop
       · exact Or.inr ⟨rfl, _, rfl, by assumption⟩)

theorem deployLoop_trace_mem (cfg : ServerConfig) (env : DeployEnv)
    (bc ow : String) (p : DeployParams) :
    ∀ (chains : List String) (st : HandlerState),
    ∀ op ∈ (deployLoop cfg env bc ow p chains st).1.trace,
      op ∈ st.trace ∨
      (op.saltOf = some (computeSalt p.tokenName p.tokenSymbol) ∧
       ∃ args, op.argsOf = some args ∧
         parseUnits p.initialTotalSupply 0 = .ok args.initialSupply)
  | [], st, op, hop => Or.inl hop
  | c :: rest, st, op, hop => by
    rw [deployLoop_cons] at hop
    rcases hiter : deployIter cfg env bc ow p st c with ⟨st1, r1⟩
    rw [hiter] at hop
    have hmem := deployIter_trace_mem cfg env bc ow p st c
    rw [hiter] at hmem
    cases r1 with
    | some r =>
      simp only at hop
      exact hmem op hop
    | none =>
      simp only at hop
      rcases deployLoop_trace_mem cfg env bc ow p rest st1 op hop with h | h
      · exact hmem op h
      · exact Or.inr h

theorem peerStep_trace_mem (env : DeployEnv) (a b : DeployedContractData)
    (st : HandlerState) :
    ∀ op ∈ (peerStep env a b st).1.trace,
      op ∈ st.trace ∨ (op.saltOf = none ∧ op.argsOf = none) := by
  intro op hop
  unfold peerStep peerCatch at hop
  simp only [catchSome] at hop
  repeat' split at hop
  all_goals simp only [List.mem_append, List.mem_singleton] at hop
  all_goals first
    | exact Or.inl hop
    | (rcases hop with hop | rfl
       · exact Or.inl hop
       · exact Or.inr ⟨rfl, rfl⟩)

theorem peerInner_trace_mem (env : DeployEnv) (a : DeployedContractData) :
    ∀ (bs : List DeployedContractData) (st : HandlerState),
    ∀ op ∈ (peerInner env a bs st).1.trace,
      op ∈ st.trace ∨ (op.saltOf = none ∧ op.argsOf = none)
  | [], st, op, hop => Or.inl hop
  | b :: rest, st, op, hop => by
    unfold peerInner at hop
    by_cases hc : a.chainName = b.chainName
    · rw [if_pos hc] at hop
      exact peerInner_trace_mem env a rest st op hop
    · rw [if_neg hc] at hop
      rcases hstep : peerStep env a b st with ⟨st1, r1⟩
      rw [hstep] at hop
      have hmem := peerStep_trace_mem env a b st
      rw [hstep] at hmem
      cases r1 with
      | some r =>
        simp only at hop
        exact hmem op hop
      | none =>
        simp only at hop
        rcases peerInner_trace_mem env a rest st1 op hop with h | h
        · exact hmem op h
        · exact Or.inr h

theorem peerOuter_trace_mem (env : DeployEnv)
    (all : List DeployedContractData) :
    ∀ (as2 : List DeployedContractData) (st : HandlerState),
    ∀ op ∈ (peerOuter env all as2 st).1.trace,
      op ∈ st.trace ∨ (op.saltOf = none ∧ op.argsOf = none)
  | [], st, op, hop => Or.inl hop
  | a :: rest, st, op, hop => by
    unfold peerOuter at hop
    rcases hinner : peerInner env a all st with ⟨st1, r1⟩
    rw [hinner] at hop
    have hmem := peerInner_trace_mem env a all st
    rw [hinner] at hmem
    cases r1 with
    | some r =>
      simp only at hop
      exact hmem op hop
    | none =>
      simp only at hop
      rcases peerOuter_trace_mem env all rest st1 op hop with h | h
      · exact hmem op h
      · exact Or.inr h

theorem enforcedStep_trace_mem (env : DeployEnv)
    (all : List DeployedContractData) (a : DeployedContractData)
    (st : HandlerState) :
    ∀ op ∈ (enforcedStep env all a st).1.trace,
      op ∈ st.trace ∨ (op.saltOf = none ∧ op.argsOf = none) := by
  intro op hop
  unfold enforcedStep at hop
  by_cases hlen : (optionsToSetFor all a).length > 0
  · simp only [if_pos hlen] at hop
    cases hres : env.setEnforcedOptionsResult a.chainName
        (optionsToSetFor all a) with
    | error e =>
      simp only [hres, List.mem_append, List.mem_singleton] at hop
      rcases hop with hop | rfl
      · exact Or.inl hop
      · exact Or.inr ⟨rfl, rfl⟩
    | ok tx =>
      simp only [hres, List.mem_append, List.mem_singleton] at hop
      rcases hop with hop | rfl
      · exact Or.inl hop
      · exact Or.inr ⟨rfl, rfl⟩
  · simp only [if_neg hlen] at hop
    exact Or.inl hop

theorem enforcedLoop_trace_mem (env : DeployEnv)
    (all : List DeployedContractData) :
    ∀ (as2 : List DeployedContractData) (st : HandlerState),
    ∀ op ∈ (enforcedLoop env all as2 st).1.trace,
      op ∈ st.trace ∨ (op.saltOf = none ∧ op.argsOf = none)
  | [], st, op, hop => Or.inl hop
  | a :: rest, st, op, hop => by
    unfold enforcedLoop at hop
    rcases hstep : enforcedStep env all a st with ⟨st1, r1⟩
    rw [hstep] at hop
    have hmem := enforcedStep_trace_mem env all a st
    rw [hstep] at hmem
    cases r1 with
    | some r =>
      simp only at hop
      exact hmem op hop
    | none =>
      simp only at hop
      rcases enforcedLoop_trace_mem env all rest st1 op hop with h | h
      · exact hmem op h
      · exact Or.inr h

theorem peeringPhase_trace_mem (env : DeployEnv) (st st1 : HandlerState)
    (r : Option ToolResponse) (h : peeringPhase env st = (st1, r)) :
    ∀ op ∈ st1.trace,
      op ∈ st.trace ∨ (op.saltOf = none ∧ op.argsOf = none) := by
  intro op hop
  unfold peeringPhase at h
  by_cases h2 : st.deployed.length < 2
  · simp only [if_pos h2] at h
    injection h with hA hB
    subst hA
    exact Or.inl hop
  · simp only [if_neg h2] at h
    have hm := peerOuter_trace_mem env st.deployed st.deployed
      { st with log := st.log ++
        ["Found " ++ toString st.deployed.length ++
          " successfully deployed contracts for peering."] } op
    rw [h] at hm
    exact hm hop

theorem enforcedPhase_trace_mem (env : DeployEnv) (st st1 : HandlerState)
    (r : Option ToolResponse) (h : enforcedPhase env st = (st1, r)) :
    ∀ op ∈ st1.trace,
      op ∈ st.trace ∨ (op.saltOf = none ∧ op.argsOf = none) := by
  intro op hop
  unfold enforcedPhase at h
  by_cases h0 : st.deployed.length = 0
  · simp only [if_pos h0] at h
    injection h with hA hB
    subst hA
    exact Or.inl hop
  · simp only [if_neg h0] at h
    have hm := enforcedLoop_trace_mem env st.deployed st.deployed st op
    rw [h] at hm
    exact hm hop

theorem configurePhases_trace_mem (env : DeployEnv) (st : HandlerState) :
    ∀ op ∈ (configurePhases env st).1.trace,
      op ∈ st.trace ∨ (op.saltOf = none ∧ op.argsOf = none) := by
  intro op hop
  unfold configurePhases at hop
  simp only [] at hop
  split at hop
  · next st1 r heq =>
    exact peeringPhase_trace_mem env _ st1 _ heq op hop
  · next st1 heq =>
    split at hop
    · next st2 r2 heq2 =>
      rcases enforcedPhase_trace_mem env _ st2 _ heq2 op hop with h | h
      · exact peeringPhase_trace_mem env _ st1 _ heq op h
      · exact Or.inr h
    · next st2 heq2 =>
      simp only at hop
      rcases enforcedPhase_trace_mem env _ st2 _ heq2 op hop with h | h
      · exact peeringPhase_trace_mem env _ st1 _ heq op h
      · exact Or.inr h

theorem deployLoop_trace_mem_eq (cfg : ServerConfig) (env : DeployEnv)
    (bc ow : String) (p : DeployParams) (chains : List String)
    (st st' : HandlerState) (r : Option ToolResponse)
    (h : deployLoop cfg env bc ow p chains st = (st', r)) :
    ∀ op ∈ st'.trace,
      op ∈ st.trace ∨
      (op.saltOf = some (computeSalt p.tokenName p.tokenSymbol) ∧
       ∃ args, op.argsOf = some args ∧
         parseUnits p.initialTotalSupply 0 = .ok args.initialSupply) := by
  intro op hop
  have hm := deployLoop_trace_mem cfg env bc ow p chains st op
  rw [h] at hm
  exact hm hop

theorem deployTool_trace_mem (cfg : ServerConfig) (env : DeployEnv)
    (p : DeployParams) :
    ∀ op ∈ (deployTool cfg env p).1.trace,
      (op.saltOf = some (computeSalt p.tokenName p.tokenSymbol) ∧
       ∃ args, op.argsOf = some args ∧
         parseUnits p.initialTotalSupply 0 = .ok args.initialSupply) ∨
      (op.saltOf = none ∧ op.argsOf = none) := by
  intro op hop
  rw [deployTool_fst] at hop
  unfold deployAndConfigureOftMultichain at hop
  simp only [] at hop
  split at hop
  · simp at hop
  · split at hop
    · simp at hop
    · split at hop
      · simp at hop
      · split at hop
        · next st1 r heq =>
          rcases deployLoop_trace_mem_eq cfg env _ _ p _ _ st1 _ heq op hop
            with h | h
          · simp at h
          · exact Or.inl h
        · next st1 heq =>
          rcases configurePhases_trace_mem env st1 op hop with h | h
          · rcases deployLoop_trace_mem_eq cfg env _ _ p _ _ st1 _ heq op h
              with h2 | h2
            · simp at h2
            · exact Or.inl h2
          · exact Or.inr h

/-! ## C3: the salt is the keccak256 of name:symbol, identical everywhere -/

/-- C3: in every run, every deployment attempt in the trace uses the same
salt — the keccak256 digest of the UTF-8 bytes of
`tokenName ++ ":" ++ tokenSymbol` — which is a pure function of the token
name and symbol only, hence identical across chains and across requests. -/
theorem salt_is_keccak_of_name_symbol (cfg : ServerConfig) (env : DeployEnv)
    (p : DeployParams) :
    ((deployTool cfg env p).1.trace.all (fun op =>
      match op.saltOf with
      | none => true
      | some s => s == computeSalt p.tokenName p.tokenSymbol)) = true ∧
    computeSalt p.tokenName p.tokenSymbol =
      hexlify (keccak256 (toUtf8Bytes (p.tokenName ++ ":" ++ p.tokenSymbol))) := by
  refine ⟨?_, rfl⟩
  apply List.all_eq_true.mpr
  intro op hop
  rcases deployTool_trace_mem cfg env p op hop with ⟨hs, _⟩ | ⟨hs, _⟩
  · simp only [hs]
    simp
  · simp only [hs]

/-! ## C7: the supply is parsed raw, decimals validated but never applied -/

/-- C7: in every run, the constructor argument list of every deployment
attempt carries as its supply the zero-decimals (raw integer) parse of
`initialTotalSupply` — unscaled, so the `decimals` parameter is never
applied to the deployed supply — while the request schema accepts
`decimals` exactly in the range 0–18 and defaults it to 18. -/
theorem supply_parsed_raw_decimals_unapplied (cfg : ServerConfig)
    (env : DeployEnv) (p : DeployParams) :
    ((deployTool cfg env p).1.trace.all (fun op =>
      match op.argsOf, parseUnits p.initialTotalSupply 0 with
      | none, _ => true
      | some args, .ok v => args.initialSupply == v
      | some _, .error _ => false)) = true ∧
    decimalsSchemaParse none = .ok 18 ∧
    (∀ d : Int, (decimalsSchemaParse (some d)).isOk = decide (0 ≤ d ∧ d ≤ 18)) := by
  refine ⟨?_, rfl, ?_⟩
  · apply List.all_eq_true.mpr
    intro op hop
    rcases deployTool_trace_mem cfg env p op hop with ⟨_, args, ha, hp⟩ | ⟨_, ha⟩
    · simp only [ha, hp]
      simp
    · simp only [ha]
  · intro d
    show (if 0 ≤ d ∧ d ≤ 18 then (Except.ok d.toNat : Except String Nat)
        else Except.error "invalid decimals").isOk = decide (0 ≤ d ∧ d ≤ 18)
    by_cases hd : 0 ≤ d ∧ d ≤ 18
    · rw [if_pos hd, decide_eq_true hd]
      rfl
    · rw [if_neg hd, decide_eq_false hd]
      rfl

/-! ## Success-path lemmas for the peering and enforced-options phases -/

theorem peerStep_success (env : DeployEnv) (a b : DeployedContractData)
    (st : HandlerState)
    (hf : (formatAddressForLayerZero b.address).isOk = true)
    (hpeer : ∀ x y z, (env.setPeerResult x y z).isOk = true) :
    (peerStep env a b st).2 = none ∧
    (peerStep env a b st).1.trace =
      st.trace ++ [.setPeer a.chainName a.address b.lzEid (fmtAddr b)] ∧
    (peerStep env a b st).1.deployed = st.deployed ∧
    (peerStep env a b st).1.summary = st.summary := by
  cases hf2 : formatAddressForLayerZero b.address with
  | error e => rw [hf2] at hf; simp [Except.isOk, Except.toBool] at hf
  | ok pb =>
  have hfmt : fmtAddr b = pb := by unfold fmtAddr; rw [hf2]
  cases hp2 : env.setPeerResult a.chainName b.lzEid pb with
  | error e =>
    have := hpeer a.chainName b.lzEid pb
    rw [hp2] at this
    simp [Except.isOk, Except.toBool] at this
  | ok tx =>
    rw [hfmt]
    unfold peerStep
    simp only [hf2, hp2]
    refine ⟨?_, ?_, ?_, ?_⟩ <;> first | rfl | trivial

theorem peerInner_success (env : DeployEnv) (a : DeployedContractData)
    (hpeer : ∀ x y z, (env.setPeerResult x y z).isOk = true) :
    ∀ (bs : List DeployedContractData) (st : HandlerState),
    (∀ b ∈ bs, (formatAddressForLayerZero b.address).isOk = true) →
    (peerInner env a bs st).2 = none ∧
    (peerInner env a bs st).1.trace = st.trace ++
      (bs.filter (fun b => ¬ (a.chainName = b.chainName))).map
        (fun b => NetOp.setPeer a.chainName a.address b.lzEid (fmtAddr b)) ∧
    (peerInner env a bs st).1.deployed = st.deployed ∧
    (peerInner env a bs st).1.summary = st.summary
  | [], st, hf => by simp [peerInner]
  | b :: rest, st, hf => by
    have hfb := hf b (List.mem_cons_self b rest)
    have hfrest : ∀ b' ∈ rest, (formatAddressForLayerZero b'.address).isOk = true :=
      fun b' hb' => hf b' (List.mem_cons_of_mem b hb')
    unfold peerInner
    by_cases hc : a.chainName = b.chainName
    · rw [if_pos hc]
      obtain ⟨i1, i2, i3, i4⟩ := peerInner_success env a hpeer rest st hfrest
      refine ⟨i1, ?_, i3, i4⟩
      rw [i2]
      have : (List.filter (fun b => ¬ (a.chainName = b.chainName)) (b :: rest)) =
          List.filter (fun b => ¬ (a.chainName = b.chainName)) rest := by
        simp [List.filter_cons, hc]
      rw [this]
    · rw [if_neg hc]
      obtain ⟨s1, s2, s3, s4⟩ := peerStep_success env a b st hfb hpeer
      rcases hstep : peerStep env a b st with ⟨st1, r1⟩
      rw [hstep] at s1 s2 s3 s4
      simp only at s1 s2 s3 s4
      subst s1
      simp only
      obtain ⟨i1, i2, i3, i4⟩ := peerInner_success env a hpeer rest st1 hfrest
      refine ⟨i1, ?_, by rw [i3, s3], by rw [i4, s4]⟩
      rw [i2, s2]
      have : (List.filter (fun b => ¬ (a.chainName = b.chainName)) (b :: rest)) =
          b :: List.filter (fun b => ¬ (a.chainName = b.chainName)) rest := by
        simp [List.filter_cons, hc]
      rw [this]
      simp [List.append_assoc]

theorem peerOuter_success (env : DeployEnv) (all : List DeployedContractData)
    (hpeer : ∀ x y z, (env.setPeerResult x y z).isOk = true)
    (hf : ∀ b ∈ all, (formatAddressForLayerZero b.address).isOk = true) :
    ∀ (as2 : List DeployedContractData) (st : HandlerState),
    (peerOuter env all as2 st).2 = none ∧
    (peerOuter env all as2 st).1.trace = st.trace ++
      as2.flatMap (fun a =>
        (all.filter (fun b => ¬ (a.chainName = b.chainName))).map
          (fun b => NetOp.setPeer a.chainName a.address b.lzEid (fmtAddr b))) ∧
    (peerOuter env all as2 st).1.deployed = st.deployed ∧
    (peerOuter env all as2 st).1.summary = st.summary
  | [], st => by simp [peerOuter]
  | a :: rest, st => by
    unfold peerOuter
    obtain ⟨i1, i2, i3, i4⟩ := peerInner_success env a hpeer all st hf
    rcases hinner : peerInner env a all st with ⟨st1, r1⟩
    rw [hinner] at i1 i2 i3 i4
    simp only at i1 i2 i3 i4
    subst i1
    simp only
    obtain ⟨o1, o2, o3, o4⟩ := peerOuter_success env all hpeer hf rest st1
    refine ⟨o1, ?_, by rw [o3, i3], by rw [o4, i4]⟩
    rw [o2, i2]
    simp [List.append_assoc]

theorem enforcedStep_success (env : DeployEnv)
    (all : List DeployedContractData) (a : DeployedContractData)
    (st : HandlerState)
    (hne : optionsToSetFor all a ≠ [])
    (henf : ∀ x y, (env.setEnforcedOptionsResult x y).isOk = true) :
    (enforcedStep env all a st).2 = none ∧
    (enforcedStep env all a st).1.trace = st.trace ++
      [.setEnforcedOptions a.chainName a.address (optionsToSetFor all a)] ∧
    (enforcedStep env all a st).1.deployed = st.deployed ∧
    (enforcedStep env all a st).1.summary = st.summary := by
  have hlen : (optionsToSetFor all a).length > 0 := by
    cases h : optionsToSetFor all a with
    | nil => exact absurd h hne
    | cons x rest => simp
  cases hres : env.setEnforcedOptionsResult a.chainName (optionsToSetFor all a) with
  | error e =>
    have := henf a.chainName (optionsToSetFor all a)
    rw [hres] at this
    simp [Except.isOk, Except.toBool] at this
  | ok tx =>
    unfold enforcedStep
    simp only [if_pos hlen, hres]
    refine ⟨?_, ?_, ?_, ?_⟩ <;> first | rfl | trivial

theorem enforcedLoop_success (env : DeployEnv)
    (all : List DeployedContractData)
    (henf : ∀ x y, (env.setEnforcedOptionsResult x y).isOk = true) :
    ∀ (as2 : List DeployedContractData) (st : HandlerState),
    (∀ a ∈ as2, optionsToSetFor all a ≠ []) →
    (enforcedLoop env all as2 st).2 = none ∧
    (enforcedLoop env all as2 st).1.trace = st.trace ++
      as2.map (fun a =>
        NetOp.setEnforcedOptions a.chainName a.address (optionsToSetFor all a)) ∧
    (enforcedLoop env all as2 st).1.deployed = st.deployed ∧
    (enforcedLoop env all as2 st).1.summary = st.summary
  | [], st, hne => by simp [enforcedLoop]
  | a :: rest, st, hne => by
    unfold enforcedLoop
    obtain ⟨s1, s2, s3, s4⟩ := enforcedStep_success env all a st
      (hne a (List.mem_cons_self a rest)) henf
    rcases hstep : enforcedStep env all a st with ⟨st1, r1⟩
    rw [hstep] at s1 s2 s3 s4
    simp only at s1 s2 s3 s4
    subst s1
    simp only
    obtain ⟨o1, o2, o3, o4⟩ := enforcedLoop_success env all henf rest st1
      (fun a' ha' => hne a' (List.mem_cons_of_mem a ha'))
    refine ⟨o1, ?_, by rw [o3, s3], by rw [o4, s4]⟩
    rw [o2, s2]
    simp [List.append_assoc]

theorem peeringPhase_success (env : DeployEnv) (st : HandlerState)
    (all : List DeployedContractData)
    (hdep : st.deployed = all)
    (hlen : 2 ≤ all.length)
    (hpeer : ∀ x y z, (env.setPeerResult x y z).isOk = true)
    (hf : ∀ b ∈ all, (formatAddressForLayerZero b.address).isOk = true) :
    (peeringPhase env st).2 = none ∧
    (peeringPhase env st).1.trace = st.trace ++ expectedPeerOps all ∧
    (peeringPhase env st).1.deployed = all ∧
    (peeringPhase env st).1.summary = st.summary := by
  subst hdep
  unfold peeringPhase
  have hnot : ¬ (st.deployed.length < 2) := by omega
  simp only [if_neg hnot]
  obtain ⟨o1, o2, o3, o4⟩ := peerOuter_success env st.deployed hpeer hf
    st.deployed
    { st with log := st.log ++
      ["Found " ++ toString st.deployed.length ++
        " successfully deployed contracts for peering."] }
  exact ⟨o1, o2, o3, o4⟩

theorem enforcedPhase_success (env : DeployEnv) (st : HandlerState)
    (all : List DeployedContractData)
    (hdep : st.deployed = all)
    (hlen : 1 ≤ all.length)
    (hne : ∀ a ∈ all, optionsToSetFor all a ≠ [])
    (henf : ∀ x y, (env.setEnforcedOptionsResult x y).isOk = true) :
    (enforcedPhase env st).2 = none ∧
    (enforcedPhase env st).1.trace = st.trace ++ expectedEnforcedOps all ∧
    (enforcedPhase env st).1.deployed = all ∧
    (enforcedPhase env st).1.summary = st.summary := by
  subst hdep
  unfold enforcedPhase
  have hnot : ¬ (st.deployed.length = 0) := by omega
  simp only [if_neg hnot]
  obtain ⟨o1, o2, o3, o4⟩ := enforcedLoop_success env st.deployed henf
    st.deployed st hne
  exact ⟨o1, o2, o3, o4⟩

theorem configurePhases_success (env : DeployEnv) (st : HandlerState)
    (all : List DeployedContractData)
    (hdep : st.deployed = all)
    (hlen : 2 ≤ all.length)
    (hpeer : ∀ x y z, (env.setPeerResult x y z).isOk = true)
    (hf : ∀ b ∈ all, (formatAddressForLayerZero b.address).isOk = true)
    (hne : ∀ a ∈ all, optionsToSetFor all a ≠ [])
    (henf : ∀ x y, (env.setEnforcedOptionsResult x y).isOk = true) :
    isOkResp (configurePhases env st).2 = true ∧
    (configurePhases env st).1.trace =
      st.trace ++ expectedPeerOps all ++ expectedEnforcedOps all := by
  subst hdep
  unfold configurePhases
  simp only []
  obtain ⟨p1, p2, p3, p4⟩ := peeringPhase_success env
    { st with log := st.log ++ ["Deployment Phase completed."] ++
      ["\nPhase C: Peering Phase started."] } st.deployed rfl hlen hpeer hf
  rcases hP : peeringPhase env
      { st with log := st.log ++ ["Deployment Phase completed."] ++
        ["\nPhase C: Peering Phase started."] } with ⟨st1, r1⟩
  rw [hP] at p1 p2 p3 p4
  simp only at p1 p2 p3 p4
  subst p1
  simp only
  obtain ⟨e1, e2, e3, e4⟩ := enforcedPhase_success env
    { st1 with log := st1.log ++ ["Peering Phase completed."] ++
      ["\nPhase D: Enforced Options Phase started."] ++
      ["Standard options hex for enforced options: " ++ standardOptionsHex] }
    st.deployed p3 (by omega) hne henf
  rcases hE : enforcedPhase env
      { st1 with log := st1.log ++ ["Peering Phase completed."] ++
        ["\nPhase D: Enforced Options Phase started."] ++
        ["Standard options hex for enforced options: " ++ standardOptionsHex] }
    with ⟨st2, r2⟩
  rw [hE] at e1 e2 e3 e4
  simp only at e1 e2 e3 e4
  subst e1
  simp only
  constructor
  · rfl
  · show st2.trace = st.trace ++ expectedPeerOps st.deployed ++
      expectedEnforcedOps st.deployed
    rw [e2]
    show st1.trace ++ expectedEnforcedOps st.deployed = _
    rw [p2]

/-! ## Counting lemmas for the peering mesh -/

theorem filter_not_self_length :
    ∀ (all : List DeployedContractData),
    (all.map DeployedContractData.chainName).Nodup →
    ∀ a ∈ all,
    (all.filter (fun b => ¬ (a.chainName = b.chainName))).length =
      all.length - 1
  | [], _, a, ha => absurd ha (List.not_mem_nil a)
  | b :: rest, hnd, a, ha => by
    simp only [List.map_cons, List.nodup_cons] at hnd
    obtain ⟨hb, hrest⟩ := hnd
    rcases List.mem_cons.mp ha with rfl | ha
    · have hkeep : rest.filter (fun x => ¬ (a.chainName = x.chainName)) = rest := by
        apply List.filter_eq_self.mpr
        intro x hx
        simp only [decide_eq_true_eq]
        intro heq
        apply hb
        rw [heq]
        exact List.mem_map_of_mem DeployedContractData.chainName hx
      rw [List.filter_cons]
      have hself : ¬ ((fun b => decide ¬ (a.chainName = b.chainName)) a = true) := by
        simp
      rw [if_neg hself, hkeep]
      simp
    · have hab : ¬ (a.chainName = b.chainName) := by
        intro heq
        apply hb
        rw [← heq]
        exact List.mem_map_of_mem DeployedContractData.chainName ha
      have ih := filter_not_self_length rest hrest a ha
      have hlen1 : 1 ≤ rest.length := by
        cases rest with
        | nil => cases ha
        | cons x xs => simp
      simp only [List.filter_cons, decide_eq_true_eq]
      rw [if_pos hab]
      simp only [List.length_cons]
      omega

theorem length_flatMap_const (f : DeployedContractData → List NetOp) (k : Nat) :
    ∀ (l : List DeployedContractData), (∀ a ∈ l, (f a).length = k) →
    (l.flatMap f).length = l.length * k
  | [], _ => by simp
  | a :: rest, h => by
    have ha := h a (List.mem_cons_self a rest)
    have ih := length_flatMap_const f k rest
      (fun x hx => h x (List.mem_cons_of_mem a hx))
    simp only [List.flatMap_cons, List.length_append, ha, ih, List.length_cons]
    rw [Nat.succ_mul]
    omega

theorem peerOps_append (x y : List NetOp) :
    peerOps (x ++ y) = peerOps x ++ peerOps y := by
  unfold peerOps
  exact List.filter_append x y

theorem enforcedOps_append (x y : List NetOp) :
    enforcedOps (x ++ y) = enforcedOps x ++ enforcedOps y := by
  unfold enforcedOps
  exact List.filter_append x y

theorem peerOps_attempts (cfg : ServerConfig) (p : DeployParams)
    (chains : List String) :
    peerOps (chains.map (attemptOpFor cfg p)) = [] := by
  unfold peerOps
  rw [List.filter_eq_nil_iff]
  intro op hop
  obtain ⟨c, _, rfl⟩ := List.mem_map.mp hop
  simp [attemptOpFor, NetOp.isSetPeer]

theorem enforcedOps_attempts (cfg : ServerConfig) (p : DeployParams)
    (chains : List String) :
    enforcedOps (chains.map (attemptOpFor cfg p)) = [] := by
  unfold enforcedOps
  rw [List.filter_eq_nil_iff]
  intro op hop
  obtain ⟨c, _, rfl⟩ := List.mem_map.mp hop
  simp [attemptOpFor, NetOp.isSetEnforced]

theorem peerOps_expected (all : List DeployedContractData) :
    peerOps (expectedPeerOps all) = expectedPeerOps all := by
  unfold peerOps
  apply List.filter_eq_self.mpr
  intro op hop
  obtain ⟨a, _, hop⟩ := List.mem_flatMap.mp hop
  obtain ⟨b, _, rfl⟩ := List.mem_map.mp hop
  rfl

theorem enforcedOps_expectedPeer (all : List DeployedContractData) :
    enforcedOps (expectedPeerOps all) = [] := by
  unfold enforcedOps
  rw [List.filter_eq_nil_iff]
  intro op hop
  obtain ⟨a, _, hop⟩ := List.mem_flatMap.mp hop
  obtain ⟨b, _, rfl⟩ := List.mem_map.mp hop
  simp [NetOp.isSetEnforced]

theorem peerOps_expectedEnforced (all : List DeployedContractData) :
    peerOps (expectedEnforcedOps all) = [] := by
  unfold peerOps
  rw [List.filter_eq_nil_iff]
  intro op hop
  obtain ⟨a, _, rfl⟩ := List.mem_map.mp hop
  simp [NetOp.isSetPeer]

theorem enforcedOps_expected (all : List DeployedContractData) :
    enforcedOps (expectedEnforcedOps all) = expectedEnforcedOps all := by
  unfold enforcedOps
  apply List.filter_eq_self.mpr
  intro op hop
  obtain ⟨a, _, rfl⟩ := List.mem_map.mp hop
  rfl

theorem chainNames_of_deployed (cfg : ServerConfig) (env : DeployEnv)
    (p : DeployParams) :
    (p.targetChains.map (deployedFor cfg env p)).map
      DeployedContractData.chainName = p.targetChains := by
  rw [List.map_map]
  have h : (DeployedContractData.chainName ∘ deployedFor cfg env p) = id := by
    funext c
    exact deployedFor_chainName cfg env p c
  rw [h, List.map_id]

/-! ## C2: full peering mesh and per-chain enforced options -/

/-- C2: for a request with at least 2 target chains on which every
deployment, `setPeer` and `setEnforcedOptions` interaction succeeds, the
tool returns a success payload; its `setPeer` trace is exactly one
operation per ordered pair of distinct deployed chains (so N×(N−1)
operations for N target chains); its `setEnforcedOptions` trace has exactly
one call per deployed chain, each carrying N−1 entries, one per other
deployed chain, with that peer's EID, message type 1, and the fixed
200,000-gas options payload. -/
theorem full_mesh_peering_and_enforced_options (cfg : ServerConfig)
    (env : DeployEnv) (p : DeployParams)
    (hA : phaseAOk cfg p = true)
    (hok : ∀ c ∈ p.targetChains, chainOk cfg env p c = true)
    (hnodup : p.targetChains.Nodup)
    (hlen : 2 ≤ p.targetChains.length)
    (haddr : ∀ c ∈ p.targetChains,
      (formatAddressForLayerZero (deployedFor cfg env p c).address).isOk
        = true)
    (hpeer : ∀ x y z, (env.setPeerResult x y z).isOk = true)
    (henf : ∀ x y, (env.setEnforcedOptionsResult x y).isOk = true) :
    isOkResp (deployTool cfg env p).2 = true ∧
    peerOps (deployTool cfg env p).1.trace =
      expectedPeerOps (p.targetChains.map (deployedFor cfg env p)) ∧
    (peerOps (deployTool cfg env p).1.trace).length =
      p.targetChains.length * (p.targetChains.length - 1) ∧
    enforcedOps (deployTool cfg env p).1.trace =
      expectedEnforcedOps (p.targetChains.map (deployedFor cfg env p)) ∧
    (enforcedOps (deployTool cfg env p).1.trace).length =
      p.targetChains.length ∧
    (∀ a ∈ p.targetChains.map (deployedFor cfg env p),
      NetOp.setEnforcedOptions a.chainName a.address
          (optionsToSetFor (p.targetChains.map (deployedFor cfg env p)) a)
          ∈ enforcedOps (deployTool cfg env p).1.trace ∧
      (optionsToSetFor (p.targetChains.map (deployedFor cfg env p)) a).length
          = p.targetChains.length - 1 ∧
      ∀ o ∈ optionsToSetFor (p.targetChains.map (deployedFor cfg env p)) a,
        ∃ b ∈ p.targetChains.map (deployedFor cfg env p),
          ¬ (a.chainName = b.chainName) ∧ o.eid = b.lzEid ∧
          o.msgType = 1 ∧ o.options = standardOptionsHex) := by
  have hnames := chainNames_of_deployed cfg env p
  have hndall : ((p.targetChains.map (deployedFor cfg env p)).map
      DeployedContractData.chainName).Nodup := by
    rw [hnames]; exact hnodup
  have hlall : (p.targetChains.map (deployedFor cfg env p)).length =
      p.targetChains.length := List.length_map _ _
  have hfall : ∀ b ∈ p.targetChains.map (deployedFor cfg env p),
      (formatAddressForLayerZero b.address).isOk = true := by
    intro b hb
    obtain ⟨c, hc, rfl⟩ := List.mem_map.mp hb
    exact haddr c hc
  have hoptlen : ∀ a ∈ p.targetChains.map (deployedFor cfg env p),
      (optionsToSetFor (p.targetChains.map (deployedFor cfg env p)) a).length
        = p.targetChains.length - 1 := by
    intro a ha
    unfold optionsToSetFor
    rw [List.length_map,
      filter_not_self_length _ hndall a ha, hlall]
  have hne : ∀ a ∈ p.targetChains.map (deployedFor cfg env p),
      optionsToSetFor (p.targetChains.map (deployedFor cfg env p)) a ≠ [] := by
    intro a ha hnil
    have := hoptlen a ha
    rw [hnil] at this
    simp only [List.length_nil] at this
    omega
  obtain ⟨st0, hsum0, hdep0, hpr0, her0, htr0, hrun⟩ :=
    @deployHandler_toLoop cfg env p hA
  obtain ⟨s2, s1⟩ := deployLoop_success cfg env p p.targetChains st0 hok
  rcases hloop : deployLoop cfg env (normBytecode cfg) (effectiveOwner cfg p)
      p p.targetChains st0 with ⟨st1, r1⟩
  rw [hloop] at s1 s2
  simp only at s1 s2
  subst s2
  rw [hloop] at hrun
  simp only at hrun
  have hdeployed : st1.deployed = p.targetChains.map (deployedFor cfg env p) := by
    rw [s1]; simp [hdep0]
  have htrace : st1.trace = p.targetChains.map (attemptOpFor cfg p) := by
    rw [s1]; simp [htr0]
  obtain ⟨k1, k2⟩ := configurePhases_success env st1
    (p.targetChains.map (deployedFor cfg env p)) hdeployed
    (by rw [hlall]; exact hlen) hpeer hfall hne henf
  have htool : deployTool cfg env p = configurePhases env st1 := by
    unfold deployTool
    rw [hrun]
    rcases hc2 : configurePhases env st1 with ⟨stx, rx⟩
    rw [hc2] at k1
    simp only at k1
    cases rx with
    | ok r => rfl
    | err t => rfl
    | thrown m => simp [isOkResp] at k1
  rw [htool]
  have hpo : peerOps (configurePhases env st1).1.trace =
      expectedPeerOps (p.targetChains.map (deployedFor cfg env p)) := by
    rw [k2, htrace, peerOps_append, peerOps_append, peerOps_attempts,
      peerOps_expected, peerOps_expectedEnforced]
    simp
  have heo : enforcedOps (configurePhases env st1).1.trace =
      expectedEnforcedOps (p.targetChains.map (deployedFor cfg env p)) := by
    rw [k2, htrace, enforcedOps_append, enforcedOps_append,
      enforcedOps_attempts, enforcedOps_expectedPeer, enforcedOps_expected]
    simp
  refine ⟨k1, hpo, ?_, heo, ?_, ?_⟩
  · rw [hpo]
    unfold expectedPeerOps
    rw [length_flatMap_const _ (p.targetChains.length - 1) _ ?_, hlall]
    intro a ha
    rw [List.length_map, filter_not_self_length _ hndall a ha, hlall]
  · rw [heo]
    unfold expectedEnforcedOps
    rw [List.length_map, hlall]
  · intro a ha
    refine ⟨?_, hoptlen a ha, ?_⟩
    · rw [heo]
      unfold expectedEnforcedOps
      exact List.mem_map_of_mem _ ha
    · intro o ho
      unfold optionsToSetFor at ho
      obtain ⟨b, hb, rfl⟩ := List.mem_map.mp ho
      obtain ⟨hball, hcond⟩ := List.mem_filter.mp hb
      refine ⟨b, hball, ?_, rfl, rfl, rfl⟩
      exact of_decide_eq_true hcond

set_option maxRecDepth 100000 in
/-- Witness for C2 at the sample two-chain request. -/
theorem full_mesh_peering_and_enforced_options_witness :
    phaseAOk sampleCfg sampleParams = true ∧
    (∀ c ∈ sampleParams.targetChains,
      chainOk sampleCfg sampleEnv sampleParams c = true) ∧
    sampleParams.targetChains.Nodup ∧
    2 ≤ sampleParams.targetChains.length ∧
    (∀ c ∈ sampleParams.targetChains,
      (formatAddressForLayerZero
        (deployedFor sampleCfg sampleEnv sampleParams c).address).isOk
        = true) ∧
    (∀ x y z, (sampleEnv.setPeerResult x y z).isOk = true) ∧
    (∀ x y, (sampleEnv.setEnforcedOptionsResult x y).isOk = true) ∧
    (isOkResp (deployTool sampleCfg sampleEnv sampleParams).2 = true ∧
    (peerOps (deployTool sampleCfg sampleEnv sampleParams).1.trace).length =
      sampleParams.targetChains.length *
        (sampleParams.targetChains.length - 1) ∧
    (enforcedOps (deployTool sampleCfg sampleEnv sampleParams).1.trace).length
      = sampleParams.targetChains.length) :=
  ⟨by decide, by decide, by decide, by decide, by decide,
    fun _ _ _ => rfl, fun _ _ => rfl,
    match full_mesh_peering_and_enforced_options sampleCfg sampleEnv
      sampleParams (by decide) (by decide) (by decide) (by decide)
      (by decide) (fun _ _ _ => Eq.refl true) (fun _ _ => rfl) with
    | ⟨a, _, b, _, d, _⟩ => ⟨a, b, d⟩⟩

/-! ## Success-path invariants, toward C10 -/

theorem deployIter_some_notOk (cfg : ServerConfig) (env : DeployEnv)
    (bc ow : String) (p : DeployParams) (st : HandlerState) (c : String)
    (st' : HandlerState) (r : ToolResponse)
    (h : deployIter cfg env bc ow p st c = (st', some r)) :
    isOkResp r = false := by
  unfold deployIter deployCatch getSigner at h
  simp only [catchSome] at h
  repeat' split at h
  all_goals injection h with h1 h2
  all_goals first
    | (injection h2 with h3; subst h3; rfl)
    | (exact Option.noConfusion h2)

theorem deployIter_none_good (cfg : ServerConfig) (env : DeployEnv)
    (bc ow : String) (p : DeployParams) (st : HandlerState) (c : String)
    (st' : HandlerState)
    (h : deployIter cfg env bc ow p st c = (st', none))
    (hg : goodState env st) :
    goodState env st' ∧ st'.deployed.length = st.deployed.length + 1 := by
  obtain ⟨hs, ht⟩ := hg
  unfold deployIter deployCatch getSigner at h
  simp only [catchSome] at h
  repeat' split at h
  all_goals injection h with h1 h2
  all_goals try (exact Option.noConfusion h2)
  subst h1
  refine ⟨⟨?_, ?_⟩, ?_⟩
  · intro s hmem
    simp only [List.mem_append, List.mem_singleton] at hmem
    rcases hmem with hmem | rfl
    · exact hs s hmem
    · rfl
  · intro op hmem
    simp only [List.mem_append, List.mem_singleton] at hmem
    rcases hmem with hmem | rfl
    · exact ht op hmem
    · simp only [opSucceeded]
      simp_all [Except.isOk, Except.toBool]
  · simp

theorem deployLoop_some_notOk (cfg : ServerConfig) (env : DeployEnv)
    (bc ow : String) (p : DeployParams) :
    ∀ (chains : List String) (st st' : HandlerState) (r : ToolResponse),
    deployLoop cfg env bc ow p chains st = (st', some r) →
    isOkResp r = false
  | [], st, st', r, h => by
    simp only [deployLoop, Prod.mk.injEq] at h
    exact Option.noConfusion h.2
  | c :: rest, st, st', r, h => by
    rw [deployLoop] at h
    rcases hit : deployIter cfg env bc ow p st c with ⟨st1, r1⟩
    rw [hit] at h
    cases r1 with
    | some r2 =>
      simp only [Prod.mk.injEq, Option.some.injEq] at h
      obtain ⟨h1, h2⟩ := h
      rw [← h2]
      exact deployIter_some_notOk cfg env bc ow p st c st1 r2 hit
    | none =>
      exact deployLoop_some_notOk cfg env bc ow p rest st1 st' r h

theorem deployLoop_none_good (cfg : ServerConfig) (env : DeployEnv)
    (bc ow : String) (p : DeployParams) :
    ∀ (chains : List String) (st st' : HandlerState),
    deployLoop cfg env bc ow p chains st = (st', none) →
    goodState env st →
    goodState env st' ∧
      st'.deployed.length = st.deployed.length + chains.length
  | [], st, st', h, hg => by
    simp only [deployLoop, Prod.mk.injEq] at h
    obtain ⟨h1, _⟩ := h
    subst h1
    exact ⟨hg, by simp⟩
  | c :: rest, st, st', h, hg => by
    rw [deployLoop] at h
    rcases hit : deployIter cfg env bc ow p st c with ⟨st1, r1⟩
    rw [hit] at h
    cases r1 with
    | some r2 =>
      simp only [Prod.mk.injEq] at h
      exact Option.noConfusion h.2
    | none =>
      obtain ⟨hg1, hl1⟩ := deployIter_none_good cfg env bc ow p st c st1 hit hg
      obtain ⟨hg2, hl2⟩ := deployLoop_none_good cfg env bc ow p rest st1 st' h hg1
      refine ⟨hg2, ?_⟩
      rw [hl2, hl1]
      simp only [List.length_cons]
      omega

theorem peerStep_some_notOk (env : DeployEnv) (a b : DeployedContractData)
    (st st' : HandlerState) (r : ToolResponse)
    (h : peerStep env a b st = (st', some r)) :
    isOkResp r = false := by
  unfold peerStep peerCatch at h
  simp only [catchSome] at h
  repeat' split at h
  all_goals injection h with h1 h2
  all_goals first
    | (injection h2 with h3; subst h3; rfl)
    | (exact Option.noConfusion h2)

theorem peerStep_none_good (env : DeployEnv) (a b : DeployedContractData)
    (st st' : HandlerState)
    (h : peerStep env a b st = (st', none))
    (hg : goodState env st) :
    goodState env st' ∧ st'.deployed = st.deployed := by
  obtain ⟨hs, ht⟩ := hg
  unfold peerStep peerCatch at h
  simp only [catchSome] at h
  repeat' split at h
  all_goals injection h with h1 h2
  all_goals try (exact Option.noConfusion h2)
  subst h1
  refine ⟨⟨hs, ?_⟩, rfl⟩
  intro op hmem
  simp only [List.mem_append, List.mem_singleton] at hmem
  rcases hmem with hmem | rfl
  · exact ht op hmem
  · simp only [opSucceeded]
    simp_all [Except.isOk, Except.toBool]

theorem peerInner_some_notOk (env : DeployEnv) (a : DeployedContractData) :
    ∀ (l : List DeployedContractData) (st st' : HandlerState)
      (r : ToolResponse),
    peerInner env a l st = (st', some r) → isOkResp r = false
  | [], st, st', r, h => by
    simp only [peerInner, Prod.mk.injEq] at h
    exact Option.noConfusion h.2
  | b :: rest, st, st', r, h => by
    rw [peerInner] at h
    by_cases hc : a.chainName = b.chainName
    · rw [if_pos hc] at h
      exact peerInner_some_notOk env a rest st st' r h
    · rw [if_neg hc] at h
      rcases hit : peerStep env a b st with ⟨st1, r1⟩
      rw [hit] at h
      cases r1 with
      | some r2 =>
        simp only [Prod.mk.injEq, Option.some.injEq] at h
        obtain ⟨h1, h2⟩ := h
        rw [← h2]
        exact peerStep_some_notOk env a b st st1 r2 hit
      | none =>
        exact peerInner_some_notOk env a rest st1 st' r h

theorem peerInner_none_good (env : DeployEnv) (a : DeployedContractData) :
    ∀ (l : List DeployedContractData) (st st' : HandlerState),
    peerInner env a l st = (st', none) → goodState env st →
    goodState env st' ∧ st'.deployed = st.deployed
  | [], st, st', h, hg => by
    simp only [peerInner, Prod.mk.injEq] at h
    obtain ⟨h1, _⟩ := h
    subst h1
    exact ⟨hg, rfl⟩
  | b :: rest, st, st', h, hg => by
    rw [peerInner] at h
    by_cases hc : a.chainName = b.chainName
    · rw [if_pos hc] at h
      exact peerInner_none_good env a rest st st' h hg
    · rw [if_neg hc] at h
      rcases hit : peerStep env a b st with ⟨st1, r1⟩
      rw [hit] at h
      cases r1 with
      | some r2 =>
        simp only [Prod.mk.injEq] at h
        exact Option.noConfusion h.2
      | none =>
        obtain ⟨hg1, hd1⟩ := peerStep_none_good env a b st st1 hit hg
        obtain ⟨hg2, hd2⟩ := peerInner_none_good env a rest st1 st' h hg1
        exact ⟨hg2, hd2.trans hd1⟩

theorem peerOuter_some_notOk (env : DeployEnv)
    (all : List DeployedContractData) :
    ∀ (l : List DeployedContractData) (st st' : HandlerState)
      (r : ToolResponse),
    peerOuter env all l st = (st', some r) → isOkResp r = false
  | [], st, st', r, h => by
    simp only [peerOuter, Prod.mk.injEq] at h
    exact Option.noConfusion h.2
  | a :: rest, st, st', r, h => by
    rw [peerOuter] at h
    rcases hit : peerInner env a all st with ⟨st1, r1⟩
    rw [hit] at h
    cases r1 with
    | some r2 =>
      simp only [Prod.mk.injEq, Option.some.injEq] at h
      obtain ⟨h1, h2⟩ := h
      rw [← h2]
      exact peerInner_some_notOk env a all st st1 r2 hit
    | none =>
      exact peerOuter_some_notOk env all rest st1 st' r h

theorem peerOuter_none_good (env : DeployEnv)
    (all : List DeployedContractData) :
    ∀ (l : List DeployedContractData) (st st' : HandlerState),
    peerOuter env all l st = (st', none) → goodState env st →
    goodState env st' ∧ st'.deployed = st.deployed
  | [], st, st', h, hg => by
    simp only [peerOuter, Prod.mk.injEq] at h
    obtain ⟨h1, _⟩ := h
    subst h1
    exact ⟨hg, rfl⟩
  | a :: rest, st, st', h, hg => by
    rw [peerOuter] at h
    rcases hit : peerInner env a all st with ⟨st1, r1⟩
    rw [hit] at h
    cases r1 with
    | some r2 =>
      simp only [Prod.mk.injEq] at h
      exact Option.noConfusion h.2
    | none =>
      obtain ⟨hg1, hd1⟩ := peerInner_none_good env a all st st1 hit hg
      obtain ⟨hg2, hd2⟩ := peerOuter_none_good env all rest st1 st' h hg1
      exact ⟨hg2, hd2.trans hd1⟩

theorem enforcedStep_some_notOk (env : DeployEnv)
    (all : List DeployedContractData) (a : DeployedContractData)
    (st st' : HandlerState) (r : ToolResponse)
    (h : enforcedStep env all a st = (st', some r)) :
    isOkResp r = false := by
  unfold enforcedStep at h
  simp only [] at h
  repeat' split at h
  all_goals injection h with h1 h2
  all_goals first
    | (injection h2 with h3; subst h3; rfl)
    | (exact Option.noConfusion h2)

theorem enforcedStep_none_good (env : DeployEnv)
    (all : List DeployedContractData) (a : DeployedContractData)
    (st st' : HandlerState)
    (h : enforcedStep env all a st = (st', none))
    (hg : goodState env st) :
    goodState env st' ∧ st'.deployed = st.deployed := by
  obtain ⟨hs, ht⟩ := hg
  unfold enforcedStep at h
  simp only [] at h
  repeat' split at h
  all_goals injection h with h1 h2
  all_goals try (exact Option.noConfusion h2)
  all_goals subst h1
  · refine ⟨⟨hs, ?_⟩, rfl⟩
    intro op hmem
    simp only [List.mem_append, List.mem_singleton] at hmem
    rcases hmem with hmem | rfl
    · exact ht op hmem
    · simp only [opSucceeded]
      simp_all [Except.isOk, Except.toBool]
  · exact ⟨⟨hs, ht⟩, rfl⟩

theorem enforcedLoop_some_notOk (env : DeployEnv)
    (all : List DeployedContractData) :
    ∀ (l : List DeployedContractData) (st st' : HandlerState)
      (r : ToolResponse),
    enforcedLoop env all l st = (st', some r) → isOkResp r = false
  | [], st, st', r, h => by
    simp only [enforcedLoop, Prod.mk.injEq] at h
    exact Option.noConfusion h.2
  | a :: rest, st, st', r, h => by
    rw [enforcedLoop] at h
    rcases hit : enforcedStep env all a st with ⟨st1, r1⟩
    rw [hit] at h
    cases r1 with
    | some r2 =>
      simp only [Prod.mk.injEq, Option.some.injEq] at h
      obtain ⟨h1, h2⟩ := h
      rw [← h2]
      exact enforcedStep_some_notOk env all a st st1 r2 hit
    | none =>
      exact enforcedLoop_some_notOk env all rest st1 st' r h

theorem enforcedLoop_none_good (env : DeployEnv)
    (all : List DeployedContractData) :
    ∀ (l : List DeployedContractData) (st st' : HandlerState),
    enforcedLoop env all l st = (st', none) → goodState env st →
    goodState env st' ∧ st'.deployed = st.deployed
  | [], st, st', h, hg => by
    simp only [enforcedLoop, Prod.mk.injEq] at h
    obtain ⟨h1, _⟩ := h
    subst h1
    exact ⟨hg, rfl⟩
  | a :: rest, st, st', h, hg => by
    rw [enforcedLoop] at h
    rcases hit : enforcedStep env all a st with ⟨st1, r1⟩
    rw [hit] at h
    cases r1 with
    | some r2 =>
      simp only [Prod.mk.injEq] at h
      exact Option.noConfusion h.2
    | none =>
      obtain ⟨hg1, hd1⟩ := enforcedStep_none_good env all a st st1 hit hg
      obtain ⟨hg2, hd2⟩ := enforcedLoop_none_good env all rest st1 st' h hg1
      exact ⟨hg2, hd2.trans hd1⟩

theorem peeringPhase_some_notOk (env : DeployEnv) (st st' : HandlerState)
    (r : ToolResponse) (h : peeringPhase env st = (st', some r)) :
    isOkResp r = false := by
  unfold peeringPhase at h
  simp only [] at h
  split at h
  · simp only [Prod.mk.injEq] at h
    exact Option.noConfusion h.2
  · exact peerOuter_some_notOk env _ _ _ st' r h

theorem peeringPhase_none_good (env : DeployEnv) (st st' : HandlerState)
    (h : peeringPhase env st = (st', none)) (hg : goodState env st) :
    goodState env st' ∧ st'.deployed = st.deployed := by
  unfold peeringPhase at h
  simp only [] at h
  split at h
  · injection h with h1 h2
    subst h1
    exact ⟨hg, rfl⟩
  · exact peerOuter_none_good env st.deployed st.deployed
      { st with log := st.log ++ ["Found " ++ toString st.deployed.length ++
          " successfully deployed contracts for peering."] } st' h hg

theorem enforcedPhase_some_notOk (env : DeployEnv) (st st' : HandlerState)
    (r : ToolResponse) (h : enforcedPhase env st = (st', some r)) :
    isOkResp r = false := by
  unfold enforcedPhase at h
  simp only [] at h
  split at h
  · simp only [Prod.mk.injEq] at h
    exact Option.noConfusion h.2
  · exact enforcedLoop_some_notOk env _ _ _ st' r h

theorem enforcedPhase_none_good (env : DeployEnv) (st st' : HandlerState)
    (h : enforcedPhase env st = (st', none)) (hg : goodState env st) :
    goodState env st' ∧ st'.deployed = st.deployed := by
  unfold enforcedPhase at h
  simp only [] at h
  split at h
  · injection h with h1 h2
    subst h1
    exact ⟨hg, rfl⟩
  · exact enforcedLoop_none_good env st.deployed st.deployed _ st' h hg

theorem configurePhases_ok (env : DeployEnv) (st st' : HandlerState)
    (rep : DeployReport)
    (h : configurePhases env st = (st', .ok rep))
    (hg : goodState env st) :
    goodState env st' ∧
    rep.deployedContracts = st'.summary ∧
    st'.deployed = st.deployed ∧
    (rep.deployedContracts.any (fun s => s.deploymentStatus == "Failed")
        = false →
     rep.detailedExecutionLog.any (fun l => strContains l "FAILURE") = false →
     st.deployed.length ≠ 0 →
     rep.overallStatus =
       "Successfully deployed and configured on all attempted chains where deployment succeeded.") := by
  unfold configurePhases at h
  simp only [] at h
  rcases hP : peeringPhase env
      { st with log := st.log ++ ["Deployment Phase completed."] ++
        ["\nPhase C: Peering Phase started."] } with ⟨st1, r1⟩
  rw [hP] at h
  cases r1 with
  | some r2 =>
    simp only [Prod.mk.injEq] at h
    have hno := peeringPhase_some_notOk env _ st1 r2 hP
    rw [h.2] at hno
    exact absurd hno (by simp [isOkResp])
  | none =>
    simp only [] at h
    obtain ⟨hg1, hd1⟩ := peeringPhase_none_good env _ st1 hP hg
    rcases hE : enforcedPhase env
        { st1 with log := st1.log ++ ["Peering Phase completed."] ++
          ["\nPhase D: Enforced Options Phase started."] ++
          ["Standard options hex for enforced options: " ++
            standardOptionsHex] } with ⟨st2, r2⟩
    rw [hE] at h
    cases r2 with
    | some r3 =>
      simp only [Prod.mk.injEq] at h
      have hno := enforcedPhase_some_notOk env _ st2 r3 hE
      rw [h.2] at hno
      exact absurd hno (by simp [isOkResp])
    | none =>
      simp only [] at h
      obtain ⟨hg2, hd2⟩ := enforcedPhase_none_good env _ st2 hE hg1
      injection h with h1 h2
      injection h2 with h3
      subst h1
      subst h3
      refine ⟨hg2, rfl, hd2.trans hd1, ?_⟩
      intro hnofail hnofailure hne
      simp only [List.any_append, Bool.or_eq_false_iff] at hnofailure
      show overallStatusOf
        { st2 with log := st2.log ++ ["Enforced Options Phase completed."] ++
          ["\nPhase E: Preparing results."] } = _
      unfold overallStatusOf
      simp only []
      rw [if_neg, if_neg]
      · show ¬ (st2.deployed.length = 0)
        have : st2.deployed = st.deployed := hd2.trans hd1
        rw [this]
        exact hne
      · simp only [Bool.or_eq_true, not_or, Bool.not_eq_true]
        constructor
        · exact hnofail
        · simp only [List.any_append, Bool.or_eq_false_iff]
          exact hnofailure.1

/-! ## C10: what a non-error payload guarantees -/

/-- C10 (amended): whenever the tool returns a non-error payload, every
entry of the report's `deployedContracts` list has deployment status
`Success` and every chain operation the run attempted succeeded — partial
failures always surface as error payloads.  The overall status, however, is
derived by grepping the log for the substring `FAILURE`, so it is the
full-success message only when no log line contains that substring; a
non-error payload whose log happens to contain `FAILURE` (for instance via
the token name) carries the some-errors status instead. -/
theorem nonerror_payload_all_success (cfg : ServerConfig) (env : DeployEnv)
    (p : DeployParams)
    (hok : isOkResp (deployTool cfg env p).2 = true) :
    (∀ s ∈ summaryOf (deployTool cfg env p).2,
      s.deploymentStatus = "Success") ∧
    (∀ op ∈ (deployTool cfg env p).1.trace, opSucceeded env op = true) ∧
    ((logOf (deployTool cfg env p).2).any (fun l => strContains l "FAILURE")
        = false →
      statusOf (deployTool cfg env p).2 =
        some "Successfully deployed and configured on all attempted chains where deployment succeeded.") := by
  rcases hT : deployTool cfg env p with ⟨stF, resp⟩
  rw [hT] at hok
  cases resp with
  | err e => simp [isOkResp] at hok
  | thrown e => simp [isOkResp] at hok
  | ok rep =>
  unfold deployTool at hT
  rcases hD : deployAndConfigureOftMultichain cfg env p with ⟨stD, rD⟩
  rw [hD] at hT
  cases rD with
  | thrown e =>
    simp only [] at hT
    injection hT with h1 h2
    exact ToolResponse.noConfusion h2
  | err e =>
    simp only [] at hT
    injection hT with h1 h2
    exact ToolResponse.noConfusion h2
  | ok rep2 =>
  simp only [] at hT
  injection hT with h1 h2
  injection h2 with h3
  subst h1
  subst h3
  unfold deployAndConfigureOftMultichain at hD
  simp only [] at hD
  repeat' split at hD
  all_goals try (injection hD with h1 h2; exact ToolResponse.noConfusion h2)
  · rename_i stX rX heqL
    injection hD with h1 h2
    have hno := deployLoop_some_notOk cfg env _ _ p p.targetChains _ stX rX heqL
    rw [h2] at hno
    simp [isOkResp] at hno
  · rename_i stMid heqL
    obtain ⟨hgMid, hlenMid⟩ := deployLoop_none_good cfg env _ _ p
      p.targetChains _ stMid heqL
      ⟨fun s hs => absurd hs (List.not_mem_nil s),
       fun op hop => absurd hop (List.not_mem_nil op)⟩
    obtain ⟨hgF, hsumEq, hdepEq, hstatus⟩ :=
      configurePhases_ok env stMid stD rep2 hD hgMid
    have hne0 : stMid.deployed.length ≠ 0 := by
      rw [hlenMid]
      intro hzero
      simp only [List.length_nil, Nat.zero_add] at hzero
      have hTnil : p.targetChains = [] := List.length_eq_zero.mp hzero
      simp_all
    refine ⟨?_, ?_, ?_⟩
    · intro s hs
      have hs' : s ∈ stD.summary := by
        rw [← hsumEq]
        exact hs
      exact hgF.1 s hs'
    · exact hgF.2
    · intro hlog
      have hnofail : rep2.deployedContracts.any
          (fun s => s.deploymentStatus == "Failed") = false := by
        rw [List.any_eq_false]
        intro s hs
        have hs' : s ∈ stD.summary := by
          rw [← hsumEq]
          exact hs
        have hsucc := hgF.1 s hs'
        rw [hsucc]
        decide
      have hlog' : rep2.detailedExecutionLog.any
          (fun l => strContains l "FAILURE") = false := hlog
      show some rep2.overallStatus = _
      rw [hstatus hnofail hlog' hne0]

set_option maxRecDepth 100000 in
/-- Witness for C10 at a concrete run returning a non-error payload. -/
theorem nonerror_payload_all_success_witness :
    isOkResp (deployTool sampleCfg sampleEnv sampleParams1).2 = true ∧
    ((∀ s ∈ summaryOf (deployTool sampleCfg sampleEnv sampleParams1).2,
      s.deploymentStatus = "Success") ∧
    (∀ op ∈ (deployTool sampleCfg sampleEnv sampleParams1).1.trace,
      opSucceeded sampleEnv op = true) ∧
    ((logOf (deployTool sampleCfg sampleEnv sampleParams1).2).any
        (fun l => strContains l "FAILURE") = false →
      statusOf (deployTool sampleCfg sampleEnv sampleParams1).2 =
        some "Successfully deployed and configured on all attempted chains where deployment succeeded.")) :=
  ⟨by decide,
   nonerror_payload_all_success sampleCfg sampleEnv sampleParams1 (by decide)⟩

set_option maxRecDepth 100000 in
/-- Counterexample to C10 as stated: a run whose token name contains the
substring `FAILURE` returns a non-error payload whose summary entries all
read `Success`, yet whose overall status is the some-errors message, not
the full-success one, because the status is derived by grepping the log
for `FAILURE` and the token-name echo line matches. -/
theorem nonerror_payload_with_some_errors_status :
    isOkResp (deployTool sampleCfg sampleEnv sampleParamsFailureName).2
      = true ∧
    (∀ s ∈ summaryOf (deployTool sampleCfg sampleEnv
        sampleParamsFailureName).2, s.deploymentStatus = "Success") ∧
    statusOf (deployTool sampleCfg sampleEnv sampleParamsFailureName).2 =
      some "Deployment and configuration process completed. Some errors occurred. Check detailed logs." :=
  ⟨by decide, by decide, by decide⟩
